import Mathlib

/-
Verification development for the falling-block game engine implemented in
src/behavior_tetris.c.  The game-state model, collision and rotation engine,
line-clear engine, score-line builder, diff renderer and the 7-bag randomizer
are embedded shallowly: every definition below mirrors the corresponding C
function, with machine integers modelled as Nat and Int, fixed-size arrays as
lists, and the random source as an explicit parameter.
-/

namespace ZmkTetris

/-- Board width, from the BOARD_W tunable in behavior_tetris.c. -/
abbrev BOARD_W : Nat := 10

/-- Board height, from the BOARD_H tunable. -/
abbrev BOARD_H : Nat := 10

/-- First editor line holding a board row (BOARD_TOP_LINE_INDEX). -/
abbrev BOARD_TOP_LINE_INDEX : Nat := 3

/-- Cap on the number of diff entries in one batch (MAX_UPDATE_LINES). -/
abbrev MAX_UPDATE_LINES : Nat := 16

/-- The locked-cell grid board_locked, a list of BOARD_H rows of BOARD_W
booleans. -/
abbrev Board := List (List Bool)

/-- Read one cell of the locked grid, board_locked[r][c]; out-of-range
reads default to false (the C code only indexes in range). -/
def cellAt (b : Board) (r c : Nat) : Bool := (b.getD r []).getD c false

/-- Write true into one cell of the locked grid, board_locked[r][c] = 1. -/
def setCell (b : Board) (r c : Nat) : Board := b.set r ((b.getD r []).set c true)

/-- The all-empty board (all cells zero). -/
def emptyBoard : Board := List.replicate BOARD_H (List.replicate BOARD_W false)

/-- Wipe every cell of the board to 0, as the gameover recovery loops do. -/
def wipe_board (b : Board) : Board := b.map (fun row => row.map (fun _ => false))

/-- The BIT_AT(r, c) macro: bit (r * 4 + c) of a 4x4 mask. -/
def BIT_AT (r c : Nat) : Nat := 1 <<< (r * 4 + c)

/-- The mask_has helper: (m AND BIT_AT(r, c)) != 0. -/
def mask_has (m : Nat) (r c : Nat) : Bool := (m &&& BIT_AT r c) != 0

/-- The SHAPE[TET_COUNT][4] table of 4x4 orientation masks.  Piece kinds are
numbered as in enum tetromino: I = 0, O = 1, T = 2, S = 3, Z = 4, J = 5,
L = 6.  Indices outside the table give the empty mask (the C code never
reads them). -/
def SHAPE (t r : Nat) : Nat :=
  match t, r with
  | 0, 0 => BIT_AT 1 0 ||| BIT_AT 1 1 ||| BIT_AT 1 2 ||| BIT_AT 1 3
  | 0, 1 => BIT_AT 0 2 ||| BIT_AT 1 2 ||| BIT_AT 2 2 ||| BIT_AT 3 2
  | 0, 2 => BIT_AT 2 0 ||| BIT_AT 2 1 ||| BIT_AT 2 2 ||| BIT_AT 2 3
  | 0, 3 => BIT_AT 0 1 ||| BIT_AT 1 1 ||| BIT_AT 2 1 ||| BIT_AT 3 1
  | 1, _ => BIT_AT 1 1 ||| BIT_AT 1 2 ||| BIT_AT 2 1 ||| BIT_AT 2 2
  | 2, 0 => BIT_AT 1 1 ||| BIT_AT 1 2 ||| BIT_AT 1 3 ||| BIT_AT 2 2
  | 2, 1 => BIT_AT 0 2 ||| BIT_AT 1 2 ||| BIT_AT 2 2 ||| BIT_AT 1 3
  | 2, 2 => BIT_AT 1 1 ||| BIT_AT 1 2 ||| BIT_AT 1 3 ||| BIT_AT 0 2
  | 2, 3 => BIT_AT 0 2 ||| BIT_AT 1 2 ||| BIT_AT 2 2 ||| BIT_AT 1 1
  | 3, 0 => BIT_AT 1 2 ||| BIT_AT 1 3 ||| BIT_AT 2 1 ||| BIT_AT 2 2
  | 3, 1 => BIT_AT 0 2 ||| BIT_AT 1 2 ||| BIT_AT 1 3 ||| BIT_AT 2 3
  | 3, 2 => BIT_AT 1 2 ||| BIT_AT 1 3 ||| BIT_AT 2 1 ||| BIT_AT 2 2
  | 3, 3 => BIT_AT 0 2 ||| BIT_AT 1 2 ||| BIT_AT 1 3 ||| BIT_AT 2 3
  | 4, 0 => BIT_AT 1 1 ||| BIT_AT 1 2 ||| BIT_AT 2 2 ||| BIT_AT 2 3
  | 4, 1 => BIT_AT 0 3 ||| BIT_AT 1 2 ||| BIT_AT 1 3 ||| BIT_AT 2 2
  | 4, 2 => BIT_AT 1 1 ||| BIT_AT 1 2 ||| BIT_AT 2 2 ||| BIT_AT 2 3
  | 4, 3 => BIT_AT 0 3 ||| BIT_AT 1 2 ||| BIT_AT 1 3 ||| BIT_AT 2 2
  | 5, 0 => BIT_AT 1 1 ||| BIT_AT 1 2 ||| BIT_AT 1 3 ||| BIT_AT 2 3
  | 5, 1 => BIT_AT 0 2 ||| BIT_AT 1 2 ||| BIT_AT 2 2 ||| BIT_AT 2 1
  | 5, 2 => BIT_AT 0 1 ||| BIT_AT 1 1 ||| BIT_AT 1 2 ||| BIT_AT 1 3
  | 5, 3 => BIT_AT 0 2 ||| BIT_AT 0 3 ||| BIT_AT 1 2 ||| BIT_AT 2 2
  | 6, 0 => BIT_AT 1 1 ||| BIT_AT 1 2 ||| BIT_AT 1 3 ||| BIT_AT 2 1
  | 6, 1 => BIT_AT 0 2 ||| BIT_AT 1 2 ||| BIT_AT 2 2 ||| BIT_AT 2 3
  | 6, 2 => BIT_AT 0 3 ||| BIT_AT 1 1 ||| BIT_AT 1 2 ||| BIT_AT 1 3
  | 6, 3 => BIT_AT 0 1 ||| BIT_AT 0 2 ||| BIT_AT 1 2 ||| BIT_AT 2 2
  | _, _ => 0

/-- The can_place collision test: every occupied cell of the mask
SHAPE[type][rot AND 3] offset by (x, y) must be inside [0, BOARD_W) x
[0, BOARD_H) and not locked. -/
def can_place (b : Board) (t rot : Nat) (x y : Int) : Bool :=
  (List.range 4).all fun r =>
    (List.range 4).all fun c =>
      if mask_has (SHAPE t (rot % 4)) r c then
        let br : Int := y + (r : Int)
        let bc : Int := x + (c : Int)
        if bc < 0 ∨ (BOARD_W : Int) ≤ bc ∨ br < 0 ∨ (BOARD_H : Int) ≤ br then false
        else !cellAt b br.toNat bc.toNat
      else true

/-- The falling-piece record, struct piece_state. -/
structure Piece where
  x : Int
  y : Int
  type : Nat
  rot : Nat
  deriving DecidableEq, Repr

/-- Inner-loop body of lock_falling: lock one occupied, in-bounds mask cell;
out-of-bounds mask cells are skipped. -/
def lock_cell_step (t rot : Nat) (x y : Int) (r : Nat) (b2 : Board) (c : Nat) : Board :=
  if mask_has (SHAPE t (rot % 4)) r c then
    let br : Int := y + (r : Int)
    let bc : Int := x + (c : Int)
    if 0 ≤ br ∧ br < (BOARD_H : Int) ∧ 0 ≤ bc ∧ bc < (BOARD_W : Int) then
      setCell b2 br.toNat bc.toNat
    else b2
  else b2

/-- Outer-loop body of lock_falling: lock one mask row. -/
def lock_row_step (t rot : Nat) (x y : Int) (b1 : Board) (r : Nat) : Board :=
  (List.range 4).foldl (lock_cell_step t rot x y r) b1

/-- The lock_falling board write: set every in-bounds occupied cell of the
piece mask; out-of-bounds mask cells are skipped. -/
def lock_falling (b : Board) (t rot : Nat) (x y : Int) : Board :=
  (List.range 4).foldl (lock_row_step t rot x y) b

/-- The detect_full_lines scan: bit r of the result is set iff every column
of row r is locked. -/
def detect_full_lines (b : Board) : Nat :=
  (List.range BOARD_H).foldl
    (fun mask r =>
      if (List.range BOARD_W).all (fun c => cellAt b r c) then mask ||| (1 <<< r)
      else mask)
    0

/-- Loop body of popcount16: clear the lowest set bit until zero.  The fuel
argument bounds the iteration count; 16 iterations suffice for any 16-bit
value, matching the uint16_t argument type of the C function. -/
def popcount_aux : Nat → Nat → Nat
  | 0, _ => 0
  | fuel + 1, x => if x = 0 then 0 else 1 + popcount_aux fuel (x &&& (x - 1))

/-- The popcount16 bit counter (its C argument is a uint16_t). -/
def popcount16 (x : Nat) : Nat := popcount_aux 16 (x % 65536)

/-- Compaction loop of apply_line_clear: src runs from BOARD_H - 1 down to 0
(the fuel argument holds src + 1), rows whose mask bit is set are skipped,
every other row is copied down to dst, and dst moves up past each copied
row.  dst is an int in the C code and can end at -1, hence Int here. -/
def compactAux (mask : Nat) : Nat → Int → Board → (Int × Board)
  | 0, dst, b => (dst, b)
  | n + 1, dst, b =>
    if mask.testBit n then compactAux mask n dst b
    else
      let b1 := if dst = (n : Int) then b else b.set dst.toNat (b.getD n [])
      compactAux mask n (dst - 1) b1

/-- One all-zero row. -/
def zeroRow : List Bool := List.replicate BOARD_W false

/-- Zero-fill loop of apply_line_clear: rows n - 1 down to 0 are zeroed. -/
def zeroTopRows : Nat → Board → Board
  | 0, b => b
  | n + 1, b => zeroTopRows n (b.set n zeroRow)

/-- The apply_line_clear compaction: early return on an empty mask, then
compact the kept rows to the bottom and zero-fill rows 0 .. dst. -/
def apply_line_clear (mask : Nat) (b : Board) : Board :=
  if mask = 0 then b
  else
    let p := compactAux mask BOARD_H ((BOARD_H : Int) - 1) b
    zeroTopRows (p.1 + 1).toNat p.2

/-- Rows of the board whose index bit is not set in the mask, in board order.
This is the specification-side description of what apply_line_clear must
keep, used to state its correctness. -/
def keptRows (mask : Nat) (b : Board) : Board :=
  ((List.range BOARD_H).filter (fun i => !mask.testBit i)).map (fun i => b.getD i [])

/-- Number of kept (not cleared) rows among row indices below n. -/
def kcnt (mask n : Nat) : Nat :=
  ((List.range n).filter (fun i => !mask.testBit i)).length

/-- Kept rows among row indices below n, in board order. -/
def keptV (mask : Nat) (b : Board) (n : Nat) : Board :=
  ((List.range n).filter (fun i => !mask.testBit i)).map (fun i => b.getD i [])

/-- The score reward table lookup in on_piece_landed:
tbl[cleared <= 4 ? cleared : 4] with tbl = 0, 100, 300, 500, 800. -/
def score_tbl (k : Nat) : Nat :=
  [0, 100, 300, 500, 800].getD (if k ≤ 4 then k else 4) 0

/-- The tet_char display helper. -/
def tet_char (t : Nat) : Char :=
  match t with
  | 0 => 'i'
  | 1 => 'o'
  | 2 => 't'
  | 3 => 's'
  | 4 => 'z'
  | 5 => 'j'
  | 6 => 'l'
  | _ => '.'

/-- One decimal digit character, as the C expression ASCII 0 plus (m mod 10)
computes it. -/
def digitChar (m : Nat) : Char := Char.ofNat (48 + m % 10)

/-- The build_score_next status-line builder.  It clamps the displayed score
to 99999 and the displayed line count to 999 and lays out the fixed
22-character line: s, space, five score digits, space, l, space, three line
digits, space, n, space, next-piece letter, space, h, space, hold letter or
dot, space.  The next-piece letter argument is the kind peeked from the bag
and the hold argument is the hold_type int8 (negative means empty). -/
def build_score_next (score : Nat) (lines : Nat) (next_t : Nat) (hold_t : Int) : List Char :=
  let s := if score > 99999 then 99999 else score
  let l := if lines > 999 then 999 else lines
  let nchar := tet_char next_t
  let kchar := if hold_t < 0 then '.' else tet_char hold_t.toNat
  ['s', ' ',
   digitChar (s / 10000), digitChar (s / 1000), digitChar (s / 100),
   digitChar (s / 10), digitChar s,
   ' ', 'l', ' ',
   digitChar (l / 100), digitChar (l / 10), digitChar l,
   ' ', 'n', ' ', nchar,
   ' ', 'h', ' ', kchar,
   ' ']

/-- The KICK_JLSTZ_CW wall-kick table, indexed by source rotation. -/
def KICK_JLSTZ_CW : Nat → List (Int × Int)
  | 0 => [(0, 0), (-1, 0), (-1, 1), (0, -2), (-1, -2)]
  | 1 => [(0, 0), (1, 0), (1, -1), (0, 2), (1, 2)]
  | 2 => [(0, 0), (1, 0), (1, 1), (0, -2), (1, -2)]
  | _ => [(0, 0), (-1, 0), (-1, -1), (0, 2), (-1, 2)]

/-- The KICK_JLSTZ_CCW wall-kick table. -/
def KICK_JLSTZ_CCW : Nat → List (Int × Int)
  | 0 => [(0, 0), (1, 0), (1, 1), (0, -2), (1, -2)]
  | 1 => [(0, 0), (1, 0), (1, -1), (0, 2), (1, 2)]
  | 2 => [(0, 0), (-1, 0), (-1, 1), (0, -2), (-1, -2)]
  | _ => [(0, 0), (-1, 0), (-1, -1), (0, 2), (-1, 2)]

/-- The KICK_I_CW wall-kick table for the I piece. -/
def KICK_I_CW : Nat → List (Int × Int)
  | 0 => [(0, 0), (-2, 0), (1, 0), (-2, -1), (1, 2)]
  | 1 => [(0, 0), (-1, 0), (2, 0), (-1, 2), (2, -1)]
  | 2 => [(0, 0), (2, 0), (-1, 0), (2, 1), (-1, -2)]
  | _ => [(0, 0), (1, 0), (-2, 0), (1, -2), (-2, 1)]

/-- The KICK_I_CCW wall-kick table for the I piece. -/
def KICK_I_CCW : Nat → List (Int × Int)
  | 0 => [(0, 0), (-1, 0), (2, 0), (-1, 2), (2, -1)]
  | 1 => [(0, 0), (2, 0), (-1, 0), (2, 1), (-1, -2)]
  | 2 => [(0, 0), (1, 0), (-2, 0), (1, -2), (-2, 1)]
  | _ => [(0, 0), (-2, 0), (1, 0), (-2, -1), (1, 2)]

/-- Kick-offset loop of try_rotate: try each offset in order and accept the
first one where can_place succeeds, returning the updated piece. -/
def tryKicks (b : Board) (t r1 : Nat) (x y : Int) : List (Int × Int) → Option Piece
  | [] => none
  | k :: ks =>
    if can_place b t r1 (x + k.1) (y + k.2) then some ⟨x + k.1, y + k.2, t, r1⟩
    else tryKicks b t r1 x y ks

/-- The try_rotate rotation attempt.  dir is +1 for CW, -1 for CCW.  The O
piece (kind 1) does no kick search; the I piece (kind 0) uses the I tables;
every other kind uses the JLSTZ tables.  Returns the updated piece on
success and none when every candidate fails (the C function then returns
false and leaves the piece untouched). -/
def try_rotate (b : Board) (p : Piece) (dir : Int) : Option Piece :=
  let r0 := p.rot % 4
  let r1 := if 0 < dir then (r0 + 1) % 4 else (r0 + 3) % 4
  if p.type = 1 then
    if can_place b p.type r1 p.x p.y then some { p with rot := r1 } else none
  else
    let kicks :=
      if p.type = 0 then (if 0 < dir then KICK_I_CW r0 else KICK_I_CCW r0)
      else (if 0 < dir then KICK_JLSTZ_CW r0 else KICK_JLSTZ_CCW r0)
    tryKicks b p.type r1 p.x p.y kicks

/-- Kick table actually consulted by try_rotate for a non-O piece. -/
def kick_table (t r0 : Nat) (dir : Int) : List (Int × Int) :=
  if t = 0 then (if 0 < dir then KICK_I_CW r0 else KICK_I_CCW r0)
  else (if 0 < dir then KICK_JLSTZ_CW r0 else KICK_JLSTZ_CCW r0)

/-- In-place swap of two bag entries, as the Fisher-Yates body does with a
temporary: bag[i] and bag[j] exchange values. -/
def listSwap (l : List Nat) (i j : Nat) : List Nat :=
  (l.set i (l.getD j 0)).set j (l.getD i 0)

/-- Fisher-Yates loop of refill_and_shuffle_bag: i runs from TET_COUNT - 1
down to 1, j = rnd(i) mod (i + 1), swap bag[i] with bag[j].  The rnd
function stands for the successive sys_rand32_get values, indexed by the
loop counter. -/
def fyAux (rnd : Nat → Nat) : Nat → List Nat → List Nat
  | 0, bag => bag
  | i + 1, bag => fyAux rnd i (listSwap bag (i + 1) (rnd (i + 1) % (i + 2)))

/-- The refill_and_shuffle_bag result: the identity bag 0..6 shuffled by
Fisher-Yates with the given random values.  The C function also resets
bag_idx to 0; the stateful wrappers below do that. -/
def refill_and_shuffle_bag (rnd : Nat → Nat) : List Nat :=
  fyAux rnd 6 (List.range 7)

/-- Whole game state: the module-level variables of behavior_tetris.c that
the game logic reads and writes (render and timer bookkeeping excluded).
The score field is the uint32_t score and lines_cleared_total the uint16_t
counter, each stored as its Nat value; every write to them reduces modulo
2 to the 32 and 2 to the 16 respectively, exactly where the C arithmetic
wraps. -/
structure GState where
  board : Board
  falling : Piece
  has_falling : Bool
  score : Nat
  lines_cleared_total : Nat
  hold_type : Int
  hold_used : Bool
  clearing : Bool
  clear_mask : Nat
  clear_step : Nat
  bag : List Nat
  bag_idx : Nat
  last_land_was_harddrop : Bool
  deriving Repr

/-- The bag_next_type draw: refill and reshuffle when the cursor is past the
end, then pop the entry under the cursor.  Returns the drawn kind with the
new bag contents and cursor. -/
def bag_next_type (rnd : Nat → Nat) (bag : List Nat) (idx : Nat) :
    Nat × List Nat × Nat :=
  if 7 ≤ idx then
    let nb := refill_and_shuffle_bag rnd
    (nb.getD 0 0, nb, 1)
  else (bag.getD idx 0, bag, idx + 1)

/-- bag_next_type acting on the whole game state. -/
def bag_next (rnd : Nat → Nat) (s : GState) : Nat × GState :=
  let d := bag_next_type rnd s.bag s.bag_idx
  (d.1, { s with bag := d.2.1, bag_idx := d.2.2 })

/-- The bag_peek_next_type read used by the status line (refills when
exhausted, does not advance the cursor). -/
def bag_peek (rnd : Nat → Nat) (s : GState) : Nat :=
  if 7 ≤ s.bag_idx then (refill_and_shuffle_bag rnd).getD 0 0
  else s.bag.getD s.bag_idx 0

/-- The spawn_piece operation: draw the next kind, place it at rotation 0,
x = 3, y = 0; if that collides, wipe the board, reshuffle the bag, empty the
hold slot and draw again; finally clear the hold-used latch.  The two rand
functions feed a possible refill inside the first draw and the gameover
reshuffle respectively. -/
def spawn_piece (ra rb : Nat → Nat) (s : GState) : GState :=
  let d := bag_next ra s
  let t := d.1
  let s1 := { d.2 with falling := ⟨3, 0, t, 0⟩ }
  if can_place s1.board t 0 3 0 then { s1 with hold_used := false }
  else
    let s2 := { s1 with
      board := wipe_board s1.board,
      bag := refill_and_shuffle_bag rb,
      bag_idx := 0,
      hold_type := -1,
      hold_used := false }
    let d2 := bag_next rb s2
    { d2.2 with falling := ⟨3, 0, d2.1, 0⟩, hold_used := false }

/-- Board write of lock_falling on the game state. -/
def lock_fallingS (s : GState) : GState :=
  { s with board := lock_falling s.board s.falling.type s.falling.rot s.falling.x s.falling.y }

/-- State effect of begin_spawn_delay: the piece is hidden while the spawn
timer runs (render scheduling itself is out of scope). -/
def begin_spawn_delayS (s : GState) : GState := { s with has_falling := false }

/-- State effect of begin_clear_animation. -/
def begin_clear_animationS (mask : Nat) (s : GState) : GState :=
  { s with clearing := true, clear_mask := mask, clear_step := 0 }

/-- The do_fall_one gravity step: move down one row when the piece is active
and the new position passes can_place; report whether it moved. -/
def do_fall_one (s : GState) : GState × Bool :=
  if s.has_falling &&
     can_place s.board s.falling.type s.falling.rot s.falling.x (s.falling.y + 1) then
    ({ s with falling := { s.falling with y := s.falling.y + 1 } }, true)
  else (s, false)

/-- The on_piece_landed landing path: lock the piece, deactivate it, detect
full rows; on at least one full row add the reward and the row count and
start the clear animation, otherwise start the spawn delay.  The additions
wrap as the C ones do: lines_cleared_total is a uint16_t updated through an
explicit truncating cast, and score a uint32_t updated with +=. -/
def on_piece_landed (s : GState) : GState :=
  let s1 := lock_fallingS s
  let s2 := { s1 with has_falling := false }
  let mask := detect_full_lines s2.board
  if mask ≠ 0 then
    let cleared := popcount16 mask
    let s3 := { s2 with
      lines_cleared_total := (s2.lines_cleared_total + cleared) % 65536,
      score := (s2.score + score_tbl cleared) % 4294967296 }
    begin_clear_animationS mask s3
  else
    begin_spawn_delayS s2

/-- Bounded unfolding of the while (do_fall_one()) loop of
hard_drop_and_land.  A placeable piece has y at most 9, so the loop body
succeeds at most 13 times; 20 iterations of fuel are therefore never
exhausted in any state the game reaches. -/
def fall_repeat : Nat → GState → GState
  | 0, s => s
  | n + 1, s =>
    let r := do_fall_one s
    if r.2 then fall_repeat n r.1 else s

/-- The hard_drop_and_land operation. -/
def hard_drop_and_land (s : GState) : GState :=
  if s.has_falling then on_piece_landed (fall_repeat 20 s) else s

/-- The do_hold_action operation: once per piece lifetime, either store the
current kind and spawn, or swap with the held kind at the spawn position,
treating a blocked swap like a gameover (wipe, reshuffle, reset hold, spawn).
The four rand functions feed the possible refills in the inner draws. -/
def do_hold_action (ra rb rc rd : Nat → Nat) (s : GState) : GState :=
  if !s.has_falling then s
  else if s.hold_used then s
  else
    let s0 := { s with has_falling := false }
    let s1 :=
      if s0.hold_type < 0 then
        spawn_piece ra rb { s0 with hold_type := (s0.falling.type : Int) }
      else
        let t := s0.hold_type.toNat
        let sw := { s0 with
          hold_type := (s0.falling.type : Int),
          falling := ⟨3, 0, t, 0⟩ }
        if can_place sw.board t 0 3 0 then sw
        else
          spawn_piece rd ra { sw with
            board := wipe_board sw.board,
            bag := refill_and_shuffle_bag rc,
            bag_idx := 0,
            hold_type := -1,
            hold_used := false }
    { s1 with hold_used := true, has_falling := true }

/-- Immediate-apply branch of on_user_dx: shift the piece horizontally when
can_place accepts the new position. -/
def on_user_dx (dx : Int) (s : GState) : GState :=
  if s.has_falling then
    let nx := s.falling.x + dx
    if can_place s.board s.falling.type s.falling.rot nx s.falling.y then
      { s with falling := { s.falling with x := nx } }
    else s
  else s

/-- Immediate-apply branch of on_user_rotate, through try_rotate. -/
def on_user_rotate (dir : Int) (s : GState) : GState :=
  if s.has_falling then
    match try_rotate s.board s.falling dir with
    | some p => { s with falling := p }
    | none => s
  else s

/-- One gravity or soft-drop attempt: fall one row, or land.  This is the
state mutation shared by gravity_work_handler and on_user_soft_drop. -/
def fall_or_land (s : GState) : GState :=
  let r := do_fall_one s
  if r.2 then r.1
  else on_piece_landed { s with last_land_was_harddrop := false }

/-- Immediate-apply branch of on_user_hard_drop. -/
def on_user_hard_drop (s : GState) : GState :=
  hard_drop_and_land { s with last_land_was_harddrop := true }

/-- Final tick of clear_work_handler: forget the animation state, compact
the board, and enter the spawn delay. -/
def clear_finish (s : GState) : GState :=
  let mask := s.clear_mask
  let s1 := { s with clearing := false, clear_mask := 0, clear_step := 0 }
  begin_spawn_delayS { s1 with board := apply_line_clear mask s1.board }

/-- Non-final tick of clear_work_handler: advance the blink step. -/
def clear_blink (s : GState) : GState := { s with clear_step := s.clear_step + 1 }

/-- Final tick of spawn_work_handler: spawn and activate the next piece. -/
def spawn_tick (ra rb : Nat → Nat) (s : GState) : GState :=
  { spawn_piece ra rb s with has_falling := true }

/-- The reset_game initialization (command 0): empty board, zero score,
fresh bag, empty hold, then an immediate spawn with the piece active. -/
def reset_game (ra rb rc : Nat → Nat) : GState :=
  let s0 : GState := {
    board := emptyBoard,
    falling := ⟨3, 0, 0, 0⟩,
    has_falling := false,
    score := 0,
    lines_cleared_total := 0,
    hold_type := -1,
    hold_used := false,
    clearing := false,
    clear_mask := 0,
    clear_step := 0,
    bag := refill_and_shuffle_bag ra,
    bag_idx := 0,
    last_land_was_harddrop := false }
  { spawn_piece rb rc s0 with has_falling := true }

/-- One game-state mutation, as dispatched by the input handlers and the
timer workers.  Mutating operations on the active piece run only while no
clear animation is in progress (the C handlers queue input otherwise), and
the spawn worker reschedules instead of spawning while clearing. -/
inductive Step : GState → GState → Prop
  | move (s : GState) (dx : Int) (h : s.clearing = false) : Step s (on_user_dx dx s)
  | rotate (s : GState) (dir : Int) (h : s.clearing = false) : Step s (on_user_rotate dir s)
  | gravity (s : GState) (h : s.clearing = false) (hf : s.has_falling = true) :
      Step s (fall_or_land s)
  | softDrop (s : GState) (h : s.clearing = false) (hf : s.has_falling = true) :
      Step s (fall_or_land s)
  | hardDrop (s : GState) (h : s.clearing = false) : Step s (on_user_hard_drop s)
  | hold (s : GState) (ra rb rc rd : Nat → Nat) (h : s.clearing = false) :
      Step s (do_hold_action ra rb rc rd s)
  | spawnFire (s : GState) (ra rb : Nat → Nat) (h : s.clearing = false) :
      Step s (spawn_tick ra rb s)
  | clearFire (s : GState) (h : s.clearing = true) : Step s (clear_finish s)
  | blink (s : GState) (h : s.clearing = true) : Step s (clear_blink s)

/-- Overlay loop of build_row_string: paint the occupied cells of the
falling piece whose board row equals the given row, skipping columns outside
the board. -/
def overlay_row (p : Piece) (row : Nat) (base : List Char) : List Char :=
  (List.range 4).foldl
    (fun acc (r : Nat) =>
      if p.y + (r : Int) = (row : Int) then
        (List.range 4).foldl
          (fun acc2 (c : Nat) =>
            if mask_has (SHAPE p.type (p.rot % 4)) r c then
              let bc : Int := p.x + (c : Int)
              if 0 ≤ bc ∧ bc < (BOARD_W : Int) then acc2.set bc.toNat 'x' else acc2
            else acc2)
          acc
      else acc)
    base

/-- The build_row_string renderer for one board row: a blinking clear row
shows ten equal glyphs chosen by the step parity, otherwise locked cells
show x and empty cells show a dot, with the falling piece overlaid while it
is active and no clear runs; a trailing space marker ends the row. -/
def build_row_string (s : GState) (row : Nat) : List Char :=
  if s.clearing && s.clear_mask.testBit row then
    List.replicate BOARD_W (if s.clear_step % 2 = 0 then '=' else '.') ++ [' ']
  else
    let base := (List.range BOARD_W).map (fun c => if cellAt s.board row c then 'x' else '.')
    let withPiece :=
      if s.has_falling && !s.clearing then overlay_row s.falling row base else base
    withPiece ++ [' ']

/-- The rebuild_render_next pass: build the text of every board row. -/
def rebuild_render_next (s : GState) : List (List Char) :=
  (List.range BOARD_H).map (build_row_string s)

/-- Row loop of make_board_diff over the paired snapshot and fresh rows,
carrying the running row index and the number of entries already emitted.
Equal rows are skipped; at the first differing row once the batch is full
the loop breaks, leaving the remaining snapshot rows uncommitted; otherwise
the fresh row is emitted at editor line BOARD_TOP_LINE_INDEX + row and
committed into the snapshot.  Returns the batch and the updated snapshot. -/
def mbd : Nat → Nat → List (List Char) → List (List Char) →
    (List (Nat × List Char) × List (List Char))
  | _, _, [], _ => ([], [])
  | _, _, p :: ps, [] => ([], p :: ps)
  | idx, n, p :: ps, q :: qs =>
    if p = q then
      let r := mbd (idx + 1) n ps qs
      (r.1, p :: r.2)
    else if MAX_UPDATE_LINES ≤ n then ([], p :: ps)
    else
      let r := mbd (idx + 1) (n + 1) ps qs
      ((BOARD_TOP_LINE_INDEX + idx, q) :: r.1, q :: r.2)

/-- The make_board_diff pass over a previous snapshot and the fresh rows. -/
def make_board_diff (prev next : List (List Char)) :
    List (Nat × List Char) × List (List Char) :=
  mbd 0 0 prev next

/-- Batch construction of request_diff_render: the status line (editor line
1) is emitted first when it changed, then the board diff entries are
appended while the batch stays below MAX_UPDATE_LINES.  The rand function
feeds a possible bag refill inside the next-piece peek. -/
def request_diff_batch (rnd : Nat → Nat) (s : GState) (score_prev : List Char)
    (render_prev : List (List Char)) : List (Nat × List Char) :=
  let score_next :=
    build_score_next s.score s.lines_cleared_total (bag_peek rnd s) s.hold_type
  let base : List (Nat × List Char) :=
    if score_next = score_prev then [] else [(1, score_next)]
  let bd := (make_board_diff render_prev (rebuild_render_next s)).1
  base ++ bd.take (MAX_UPDATE_LINES - base.length)

/-- Sequential horizontal movement: each queued delta applied immediately by
the idle branch of on_user_dx, one collision check per step. -/
def seq_dx (b : Board) (t rot : Nat) (y : Int) : Int → List Int → Int
  | x, [] => x
  | x, d :: ds =>
    if can_place b t rot (x + d) y then seq_dx b t rot y (x + d) ds
    else seq_dx b t rot y x ds

/-- Aggregated horizontal movement: the deltas summed into pending_dx while
busy, then drained by apply_pending_and_redraw_once with a single collision
check (skipped entirely when the sum is zero). -/
def agg_dx (b : Board) (t rot : Nat) (y : Int) (x : Int) (ds : List Int) : Int :=
  let dxsum := ds.foldl (· + ·) 0
  if dxsum = 0 then x
  else if can_place b t rot (x + dxsum) y then x + dxsum else x

/-- No collision clamping along the sequential path: every individual step
lands on a position accepted by can_place. -/
def seq_ok (b : Board) (t rot : Nat) (y : Int) : Int → List Int → Prop
  | _, [] => True
  | x, d :: ds => can_place b t rot (x + d) y = true ∧ seq_ok b t rot y (x + d) ds

/-- Pure bounds part of can_place, used to evaluate spawn positions on an
all-empty board. -/
def boundsOk (t rot : Nat) (x y : Int) : Bool :=
  (List.range 4).all fun r =>
    (List.range 4).all fun c =>
      if mask_has (SHAPE t (rot % 4)) r c then
        let br : Int := y + (r : Int)
        let bc : Int := x + (c : Int)
        decide (0 ≤ bc ∧ bc < (BOARD_W : Int) ∧ 0 ≤ br ∧ br < (BOARD_H : Int))
      else true

/-- Sequence of piece kinds produced by n successive bag_next_type draws
starting from the given bag and cursor. -/
def drawSeq (rnd : Nat → Nat) : Nat → List Nat → Nat → List Nat
  | 0, _, _ => []
  | n + 1, bag, idx =>
    let d := bag_next_type rnd bag idx
    d.1 :: drawSeq rnd n d.2.1 d.2.2

/-- States the game can be in after a session reset followed by any sequence
of mutations. -/
def Reachable (s : GState) : Prop :=
  ∃ ra rb rc, Relation.ReflTransGen Step (reset_game ra rb rc) s

/-- Well-formed board: BOARD_H rows of BOARD_W cells. -/
def boardWF (b : Board) : Prop :=
  b.length = BOARD_H ∧ ∀ row ∈ b, row.length = BOARD_W

/-- The state invariant carried through every mutation: the board has its
fixed dimensions, the bag holds only legal piece kinds, the piece is hidden
during a clear animation, and an active piece sits on a position accepted by
can_place. -/
def Inv (s : GState) : Prop :=
  boardWF s.board ∧
  (∀ t ∈ s.bag, t < 7) ∧
  (s.clearing = true → s.has_falling = false) ∧
  (s.has_falling = true →
    can_place s.board s.falling.type s.falling.rot s.falling.x s.falling.y = true)

/-- Cell (row, col) is covered by an occupied cell of the 4x4 mask of kind t
at rotation rot offset by (x, y). -/
def covers (t rot : Nat) (x y : Int) (row col : Nat) : Prop :=
  ∃ r, r < 4 ∧ ∃ c, c < 4 ∧ mask_has (SHAPE t (rot % 4)) r c = true ∧
    y + (r : Int) = (row : Int) ∧ x + (c : Int) = (col : Int)

instance (t rot : Nat) (x y : Int) (row col : Nat) :
    Decidable (covers t rot x y row col) := by
  unfold covers; infer_instance

instance (b : Board) : Decidable (boardWF b) := by
  unfold boardWF; infer_instance

/-- Concrete freshly reset session (all random values 0), used as the
explicit input of counterexamples and witnesses. -/
def freshState : GState := reset_game (fun _ => 0) (fun _ => 0) (fun _ => 0)

/-- Numeric value of a decimal digit character (inverse of the ASCII
arithmetic the status-line builder uses). -/
def decDigit (c : Char) : Nat := c.toNat - 48

/-- Concrete state about to land: the I piece rests with its occupied row on
the bottom row, whose six locked cells it completes into one full line. -/
def landState : GState :=
  { freshState with
    falling := ⟨3, 8, 0, 0⟩,
    board := List.replicate 9 (List.replicate 10 false) ++
      [[true, true, true, false, false, false, false, true, true, true]] }

/-- Concrete state whose board is fully locked, so the next spawn position
collides and spawn_piece takes its gameover recovery path. -/
def blockedState : GState :=
  { freshState with board := List.replicate 10 (List.replicate 10 true) }

/-- The landing state with the uint16_t line counter at its maximum value,
so that clearing one more row wraps it to 0. -/
def wrapState : GState := { landState with lines_cleared_total := 65535 }

/-- Concrete board with exactly rows 2, 5 and 7 full; every other row i
holds i locked cells, so the rows are pairwise distinct and their relative
order is observable after compaction. -/
def boardC2 : Board :=
  (List.range BOARD_H).map (fun i =>
    if i = 2 ∨ i = 5 ∨ i = 7 then List.replicate BOARD_W true
    else (List.range BOARD_W).map (fun c => decide (c < i)))

theorem getD_set_self {α : Type} (l : List α) (i : Nat) (a d : α) (h : i < l.length) :
    (l.set i a).getD i d = a := by
  simp [List.getD_eq_getElem?_getD, List.getElem?_set, h]

theorem getD_set_ne {α : Type} (l : List α) {i j : Nat} (h : i ≠ j) (a d : α) :
    (l.set i a).getD j d = l.getD j d := by
  simp [List.getD_eq_getElem?_getD, List.getElem?_set, h]

theorem boardWF_setCell {b : Board} (h : boardWF b) (r c : Nat) :
    boardWF (setCell b r c) := by
  obtain ⟨hlen, hrows⟩ := h
  by_cases hr : r < b.length
  · constructor
    · simpa [setCell] using hlen
    · intro row hrow
      rcases List.mem_or_eq_of_mem_set hrow with hmem | heq
      · exact hrows row hmem
      · subst heq
        rw [List.length_set, List.getD_eq_getElem b [] hr]
        exact hrows _ (List.getElem_mem hr)
  · unfold setCell
    rw [List.set_eq_of_length_le (Nat.le_of_not_lt hr)]
    exact ⟨hlen, hrows⟩

theorem cellAt_setCell {b : Board} (hwf : boardWF b) (r c row col : Nat)
    (hr : r < BOARD_H) (hc : c < BOARD_W) :
    cellAt (setCell b r c) row col = if row = r ∧ col = c then true else cellAt b row col := by
  obtain ⟨hlen, hrows⟩ := hwf
  have hrb : r < b.length := by rw [hlen]; exact hr
  have hrowlen : (b.getD r []).length = BOARD_W := by
    rw [List.getD_eq_getElem b [] hrb]; exact hrows _ (List.getElem_mem hrb)
  by_cases hrow : row = r
  · subst hrow
    unfold cellAt setCell
    rw [getD_set_self _ _ _ _ hrb]
    by_cases hcol : col = c
    · subst hcol
      rw [getD_set_self _ _ _ _ (by rw [hrowlen]; exact hc)]
      simp
    · rw [getD_set_ne _ (fun h => hcol h.symm) _ _]
      simp [hcol]
  · unfold cellAt setCell
    rw [getD_set_ne _ (fun h => hrow h.symm) _ _]
    simp [hrow]

theorem foldl_preserves_wf {α : Type} (f : Board → α → Board)
    (hf : ∀ b a, boardWF b → boardWF (f b a)) :
    ∀ (l : List α) (b : Board), boardWF b → boardWF (l.foldl f b) := by
  intro l
  induction l with
  | nil => intro b hb; exact hb
  | cons a l ih => intro b hb; exact ih _ (hf b a hb)

theorem lock_cell_step_wf (t rot : Nat) (x y : Int) (r : Nat) :
    ∀ (b : Board) (c : Nat), boardWF b → boardWF (lock_cell_step t rot x y r b c) := by
  intro b c hb
  unfold lock_cell_step
  by_cases hm : mask_has (SHAPE t (rot % 4)) r c = true
  · rw [if_pos hm]
    by_cases hin : 0 ≤ y + (r : Int) ∧ y + (r : Int) < (BOARD_H : Int) ∧
        0 ≤ x + (c : Int) ∧ x + (c : Int) < (BOARD_W : Int)
    · rw [if_pos hin]
      exact boardWF_setCell hb _ _
    · rw [if_neg hin]
      exact hb
  · rw [if_neg hm]
    exact hb

theorem lock_falling_wf {b : Board} (hb : boardWF b) (t rot : Nat) (x y : Int) :
    boardWF (lock_falling b t rot x y) := by
  unfold lock_falling
  refine foldl_preserves_wf _ ?_ _ _ hb
  intro b1 r hb1
  unfold lock_row_step
  exact foldl_preserves_wf _ (fun b2 c h2 => lock_cell_step_wf t rot x y r b2 c h2) _ _ hb1

theorem lock_inner_cell (t rot : Nat) (x y : Int) (r row col : Nat)
    (hrow : row < BOARD_H) (hcol : col < BOARD_W) :
    ∀ (cs : List Nat) (b : Board), boardWF b →
      (cellAt (cs.foldl (lock_cell_step t rot x y r) b) row col = true ↔
        (cellAt b row col = true ∨ ∃ c ∈ cs, mask_has (SHAPE t (rot % 4)) r c = true ∧
          y + (r : Int) = (row : Int) ∧ x + (c : Int) = (col : Int))) := by
  intro cs
  induction cs with
  | nil => intro b hb; simp
  | cons c cs ih =>
    intro b hb
    have hstep : boardWF (lock_cell_step t rot x y r b c) := lock_cell_step_wf t rot x y r b c hb
    rw [List.foldl_cons, ih _ hstep]
    unfold lock_cell_step
    by_cases hm : mask_has (SHAPE t (rot % 4)) r c = true
    · rw [if_pos hm]
      by_cases hin : 0 ≤ y + (r : Int) ∧ y + (r : Int) < (BOARD_H : Int) ∧
          0 ≤ x + (c : Int) ∧ x + (c : Int) < (BOARD_W : Int)
      · rw [if_pos hin]
        rw [cellAt_setCell hb _ _ _ _ (by omega) (by omega)]
        by_cases hhit : row = (y + (r : Int)).toNat ∧ col = (x + (c : Int)).toNat
        · simp only [hhit, if_pos, and_self, if_true]
          constructor
          · intro _
            right
            exact ⟨c, List.mem_cons_self .., hm, by omega, by omega⟩
          · intro _; simp
        · rw [if_neg hhit]
          constructor
          · rintro (h | ⟨c2, hc2, hprop⟩)
            · exact Or.inl h
            · exact Or.inr ⟨c2, List.mem_cons_of_mem _ hc2, hprop⟩
          · rintro (h | ⟨c2, hc2, hmm, hyy, hxx⟩)
            · exact Or.inl h
            · rcases List.mem_cons.mp hc2 with rfl | hc2
              · exfalso; exact hhit ⟨by omega, by omega⟩
              · exact Or.inr ⟨c2, hc2, hmm, hyy, hxx⟩
      · rw [if_neg hin]
        constructor
        · rintro (h | ⟨c2, hc2, hprop⟩)
          · exact Or.inl h
          · exact Or.inr ⟨c2, List.mem_cons_of_mem _ hc2, hprop⟩
        · rintro (h | ⟨c2, hc2, hmm, hyy, hxx⟩)
          · exact Or.inl h
          · rcases List.mem_cons.mp hc2 with rfl | hc2
            · exfalso; apply hin; omega
            · exact Or.inr ⟨c2, hc2, hmm, hyy, hxx⟩
    · rw [if_neg hm]
      constructor
      · rintro (h | ⟨c2, hc2, hprop⟩)
        · exact Or.inl h
        · exact Or.inr ⟨c2, List.mem_cons_of_mem _ hc2, hprop⟩
      · rintro (h | ⟨c2, hc2, hmm, hyy, hxx⟩)
        · exact Or.inl h
        · rcases List.mem_cons.mp hc2 with rfl | hc2
          · exact absurd hmm hm
          · exact Or.inr ⟨c2, hc2, hmm, hyy, hxx⟩

theorem lock_outer_cell (t rot : Nat) (x y : Int) (row col : Nat)
    (hrow : row < BOARD_H) (hcol : col < BOARD_W) :
    ∀ (rs : List Nat) (b : Board), boardWF b →
      (cellAt (rs.foldl (lock_row_step t rot x y) b) row col = true ↔
        (cellAt b row col = true ∨ ∃ r ∈ rs, ∃ c, c < 4 ∧
          mask_has (SHAPE t (rot % 4)) r c = true ∧
          y + (r : Int) = (row : Int) ∧ x + (c : Int) = (col : Int))) := by
  intro rs
  induction rs with
  | nil => intro b hb; simp
  | cons r rs ih =>
    intro b hb
    have hstep : boardWF (lock_row_step t rot x y b r) := by
      unfold lock_row_step
      exact foldl_preserves_wf _ (fun b2 c h2 => lock_cell_step_wf t rot x y r b2 c h2) _ _ hb
    rw [List.foldl_cons, ih _ hstep]
    unfold lock_row_step
    rw [lock_inner_cell t rot x y r row col hrow hcol _ _ hb]
    constructor
    · rintro ((h | ⟨c, hc, hprop⟩) | ⟨r2, hr2, hprop⟩)
      · exact Or.inl h
      · exact Or.inr ⟨r, List.mem_cons_self .., c, List.mem_range.mp hc, hprop⟩
      · obtain ⟨c2, hc2, hrest⟩ := hprop
        exact Or.inr ⟨r2, List.mem_cons_of_mem _ hr2, c2, hc2, hrest⟩
    · rintro (h | ⟨r2, hr2, c2, hc2, hprop⟩)
      · exact Or.inl (Or.inl h)
      · rcases List.mem_cons.mp hr2 with rfl | hr2
        · exact Or.inl (Or.inr ⟨c2, List.mem_range.mpr hc2, hprop⟩)
        · exact Or.inr ⟨r2, hr2, c2, hc2, hprop⟩

theorem lock_falling_cell (b : Board) (t rot : Nat) (x y : Int) (hwf : boardWF b)
    (row col : Nat) (hrow : row < BOARD_H) (hcol : col < BOARD_W) :
    (cellAt (lock_falling b t rot x y) row col = true ↔
      (cellAt b row col = true ∨ covers t rot x y row col)) := by
  unfold lock_falling
  rw [lock_outer_cell t rot x y row col hrow hcol _ _ hwf]
  unfold covers
  simp [List.mem_range]

/-- C10: lock_falling only sets cells (never clears any); it sets exactly
the in-bounds cells covered by the active piece mask at its rotation and
position, leaves every other board cell unchanged, and out-of-bounds mask
cells are skipped (only coordinates inside the board are ever written). -/
theorem C10_lock_falling_sets_exactly_covered_cells (b : Board) (t rot : Nat) (x y : Int)
    (hwf : boardWF b) (row col : Nat) (hrow : row < BOARD_H) (hcol : col < BOARD_W) :
    cellAt (lock_falling b t rot x y) row col =
      (cellAt b row col || decide (covers t rot x y row col)) := by
  rw [Bool.eq_iff_iff]
  simp only [Bool.or_eq_true, decide_eq_true_eq]
  exact lock_falling_cell b t rot x y hwf row col hrow hcol

/-- Witness for C10: locking the O piece at the spawn position on the empty
board sets the covered cell (1, 4) and leaves the uncovered cell (0, 0)
empty. -/
theorem C10_lock_falling_sets_exactly_covered_cells_witness :
    cellAt (lock_falling emptyBoard 1 0 3 0) 1 4 =
      (cellAt emptyBoard 1 4 || decide (covers 1 0 3 0 1 4)) ∧
    cellAt (lock_falling emptyBoard 1 0 3 0) 0 0 =
      (cellAt emptyBoard 0 0 || decide (covers 1 0 3 0 0 0)) :=
  ⟨C10_lock_falling_sets_exactly_covered_cells emptyBoard 1 0 3 0 (by decide) 1 4
      (by decide) (by decide),
   C10_lock_falling_sets_exactly_covered_cells emptyBoard 1 0 3 0 (by decide) 0 0
      (by decide) (by decide)⟩

theorem can_place_iff (b : Board) (t rot : Nat) (x y : Int) :
    can_place b t rot x y = true ↔
      ∀ r, r < 4 → ∀ c, c < 4 → mask_has (SHAPE t (rot % 4)) r c = true →
        0 ≤ x + (c : Int) ∧ x + (c : Int) < (BOARD_W : Int) ∧
        0 ≤ y + (r : Int) ∧ y + (r : Int) < (BOARD_H : Int) ∧
        cellAt b (y + (r : Int)).toNat (x + (c : Int)).toNat = false := by
  unfold can_place
  simp only [List.all_eq_true, List.mem_range]
  constructor
  · intro h r hr c hc hm
    have hrc := h r hr c hc
    rw [if_pos hm] at hrc
    by_cases hb : x + (c : Int) < 0 ∨ (BOARD_W : Int) ≤ x + (c : Int) ∨
        y + (r : Int) < 0 ∨ (BOARD_H : Int) ≤ y + (r : Int)
    · rw [if_pos hb] at hrc
      exact absurd hrc (by simp)
    · rw [if_neg hb] at hrc
      push_neg at hb
      exact ⟨hb.1, hb.2.1, hb.2.2.1, hb.2.2.2, by simpa using hrc⟩
  · intro h r hr c hc
    by_cases hm : mask_has (SHAPE t (rot % 4)) r c = true
    · rw [if_pos hm]
      obtain ⟨h1, h2, h3, h4, h5⟩ := h r hr c hc hm
      rw [if_neg (by omega)]
      simp [h5]
    · rw [if_neg hm]

theorem tryKicks_eq_find (b : Board) (t r1 : Nat) (x y : Int) :
    ∀ ks : List (Int × Int), tryKicks b t r1 x y ks =
      (ks.find? (fun k => can_place b t r1 (x + k.1) (y + k.2))).map
        (fun k => (⟨x + k.1, y + k.2, t, r1⟩ : Piece)) := by
  intro ks
  induction ks with
  | nil => rfl
  | cons k ks ih =>
    unfold tryKicks
    by_cases hc : can_place b t r1 (x + k.1) (y + k.2) = true
    · rw [if_pos hc]
      simp [List.find?, hc]
    · rw [if_neg hc, ih]
      simp [List.find?, hc]

theorem kick_tables_shape (r0 : Nat) :
    (KICK_JLSTZ_CW r0).length = 5 ∧ (KICK_JLSTZ_CW r0).head? = some (0, 0) ∧
    (KICK_JLSTZ_CCW r0).length = 5 ∧ (KICK_JLSTZ_CCW r0).head? = some (0, 0) ∧
    (KICK_I_CW r0).length = 5 ∧ (KICK_I_CW r0).head? = some (0, 0) ∧
    (KICK_I_CCW r0).length = 5 ∧ (KICK_I_CCW r0).head? = some (0, 0) := by
  rcases r0 with _ | _ | _ | r0 <;>
    exact ⟨rfl, rfl, rfl, rfl, rfl, rfl, rfl, rfl⟩

theorem kick_table_length (t r0 : Nat) (dir : Int) : (kick_table t r0 dir).length = 5 := by
  have h := kick_tables_shape r0
  unfold kick_table
  by_cases ht : t = 0 <;> by_cases hd : 0 < dir <;> simp [ht, hd, h.1, h.2.2.1, h.2.2.2.2.1,
    h.2.2.2.2.2.2.1]

theorem kick_table_zero_first (t r0 : Nat) (dir : Int) :
    (kick_table t r0 dir).head? = some (0, 0) := by
  have h := kick_tables_shape r0
  unfold kick_table
  by_cases ht : t = 0 <;> by_cases hd : 0 < dir <;> simp [ht, hd, h.2.1, h.2.2.2.1,
    h.2.2.2.2.2.1, h.2.2.2.2.2.2.2]

/-- C3: try_rotate targets rotation (r0 plus or minus 1) mod 4; for the O
piece it accepts iff can_place succeeds at the unchanged position, with no
kick search; for every other kind it scans exactly the five offsets of the
kick table selected by kind (I versus the rest), source rotation and
direction, in order with the zero offset first, applies the first offset
accepted by can_place, and fails (piece unchanged) iff all five offsets are
rejected; the I piece at rotation 0 rotating CW on an empty board accepts
the zero offset. -/
theorem C3_try_rotate_ordered_kick_search (b : Board) (p : Piece) (dir : Int) :
    (∀ q, try_rotate b p dir = some q → q.type = p.type ∧
      q.rot = (if 0 < dir then (p.rot % 4 + 1) % 4 else (p.rot % 4 + 3) % 4)) ∧
    (p.type = 1 →
      ((try_rotate b p dir).isSome ↔
        can_place b p.type
          (if 0 < dir then (p.rot % 4 + 1) % 4 else (p.rot % 4 + 3) % 4) p.x p.y = true) ∧
      (∀ q, try_rotate b p dir = some q → q.x = p.x ∧ q.y = p.y)) ∧
    (p.type ≠ 1 →
      try_rotate b p dir =
        ((kick_table p.type (p.rot % 4) dir).find?
            (fun k => can_place b p.type
              (if 0 < dir then (p.rot % 4 + 1) % 4 else (p.rot % 4 + 3) % 4)
              (p.x + k.1) (p.y + k.2))).map
          (fun k => (⟨p.x + k.1, p.y + k.2, p.type,
            if 0 < dir then (p.rot % 4 + 1) % 4 else (p.rot % 4 + 3) % 4⟩ : Piece)) ∧
      (kick_table p.type (p.rot % 4) dir).length = 5 ∧
      (kick_table p.type (p.rot % 4) dir).head? = some (0, 0) ∧
      (try_rotate b p dir = none ↔
        ∀ k ∈ kick_table p.type (p.rot % 4) dir,
          can_place b p.type
            (if 0 < dir then (p.rot % 4 + 1) % 4 else (p.rot % 4 + 3) % 4)
            (p.x + k.1) (p.y + k.2) = false)) ∧
    try_rotate emptyBoard ⟨3, 0, 0, 0⟩ 1 = some ⟨3, 0, 0, 1⟩ := by
  have hfind : p.type ≠ 1 → try_rotate b p dir =
      ((kick_table p.type (p.rot % 4) dir).find?
          (fun k => can_place b p.type
            (if 0 < dir then (p.rot % 4 + 1) % 4 else (p.rot % 4 + 3) % 4)
            (p.x + k.1) (p.y + k.2))).map
        (fun k => (⟨p.x + k.1, p.y + k.2, p.type,
          if 0 < dir then (p.rot % 4 + 1) % 4 else (p.rot % 4 + 3) % 4⟩ : Piece)) := by
    intro ht
    unfold try_rotate kick_table
    rw [if_neg ht]
    exact tryKicks_eq_find b p.type _ p.x p.y _
  refine ⟨?_, ?_, ?_, ?_⟩
  · intro q hq
    by_cases ht : p.type = 1
    · unfold try_rotate at hq
      rw [if_pos ht] at hq
      by_cases hc : can_place b p.type
          (if 0 < dir then (p.rot % 4 + 1) % 4 else (p.rot % 4 + 3) % 4) p.x p.y = true
      · rw [if_pos hc] at hq
        cases hq
        exact ⟨rfl, rfl⟩
      · rw [if_neg hc] at hq
        cases hq
    · rw [hfind ht] at hq
      rcases Option.map_eq_some'.mp hq with ⟨k, _, rfl⟩
      exact ⟨rfl, rfl⟩
  · intro ht
    constructor
    · unfold try_rotate
      rw [if_pos ht]
      by_cases hc : can_place b p.type
          (if 0 < dir then (p.rot % 4 + 1) % 4 else (p.rot % 4 + 3) % 4) p.x p.y = true
      · rw [if_pos hc]
        simpa using hc
      · rw [if_neg hc]
        simpa using hc
    · intro q hq
      unfold try_rotate at hq
      rw [if_pos ht] at hq
      by_cases hc : can_place b p.type
          (if 0 < dir then (p.rot % 4 + 1) % 4 else (p.rot % 4 + 3) % 4) p.x p.y = true
      · rw [if_pos hc] at hq
        cases hq
        exact ⟨rfl, rfl⟩
      · rw [if_neg hc] at hq
        cases hq
  · intro ht
    refine ⟨hfind ht, kick_table_length _ _ _, kick_table_zero_first _ _ _, ?_⟩
    rw [hfind ht]
    simp only [Option.map_eq_none', List.find?_eq_none]
    constructor
    · intro h k hk
      simpa using h k hk
    · intro h k hk
      simpa using h k hk
  · rfl

/-- Witness for C3 at the concrete inputs of the claim: empty board, the I
piece at rotation 0, clockwise. -/
theorem C3_try_rotate_ordered_kick_search_witness :
    (kick_table 0 0 1).length = 5 ∧
    try_rotate emptyBoard ⟨3, 0, 0, 0⟩ 1 = some ⟨3, 0, 0, 1⟩ := by
  have h := C3_try_rotate_ordered_kick_search emptyBoard ⟨3, 0, 0, 0⟩ 1
  exact ⟨(h.2.2.1 (by decide)).2.1, h.2.2.2⟩

theorem foldl_add_shift : ∀ (ds : List Int) (a : Int),
    ds.foldl (· + ·) a = a + ds.foldl (· + ·) 0 := by
  intro ds
  induction ds with
  | nil => intro a; simp
  | cons d ds ih =>
    intro a
    simp only [List.foldl_cons]
    rw [ih (a + d), Int.zero_add, ih d]
    ring

theorem seq_ok_sum (b : Board) (t rot : Nat) (y : Int) :
    ∀ (ds : List Int) (x : Int), seq_ok b t rot y x ds →
      seq_dx b t rot y x ds = x + ds.foldl (· + ·) 0 ∧
      (ds ≠ [] → can_place b t rot (x + ds.foldl (· + ·) 0) y = true) := by
  intro ds
  induction ds with
  | nil =>
    intro x _
    refine ⟨by simp [seq_dx], fun h => absurd rfl h⟩
  | cons d ds ih =>
    intro x hok
    obtain ⟨hc, hrest⟩ := hok
    obtain ⟨ihsum, ihcp⟩ := ih (x + d) hrest
    have hshift : (d :: ds).foldl (· + ·) 0 = d + ds.foldl (· + ·) 0 := by
      simp only [List.foldl_cons, Int.zero_add]
      exact foldl_add_shift ds d
    constructor
    · unfold seq_dx
      rw [if_pos hc, ihsum, hshift]
      ring
    · intro _
      rw [hshift]
      rcases List.eq_nil_or_concat ds with rfl | _
      · simpa using hc
      · have hne : ds ≠ [] := by
          rintro rfl
          simp_all
        have := ihcp hne
        rw [show x + (d + ds.foldl (· + ·) 0) = x + d + ds.foldl (· + ·) 0 by ring]
        exact this

/-- C5: with no intervening board change and no collision clamping along the
way, draining a queue of summed horizontal deltas with one collision check
(apply_pending_and_redraw_once) reaches the same x-position as applying each
delta immediately with its own collision check (on_user_dx). -/
theorem C5_queued_dx_drain_matches_sequential (b : Board) (t rot : Nat) (y x : Int)
    (ds : List Int) (h : seq_ok b t rot y x ds) :
    agg_dx b t rot y x ds = seq_dx b t rot y x ds := by
  obtain ⟨hsum, hcp⟩ := seq_ok_sum b t rot y ds x h
  unfold agg_dx
  by_cases hz : ds.foldl (· + ·) 0 = 0
  · rw [if_pos hz, hsum, hz]
    ring
  · rw [if_neg hz]
    have hne : ds ≠ [] := by
      rintro rfl
      exact hz rfl
    rw [if_pos (hcp hne), hsum]

/-- Witness for C5: I piece on the empty board at x = 3, queued deltas +1
then -1; both application orders end at x = 3. -/
theorem C5_queued_dx_drain_matches_sequential_witness :
    seq_ok emptyBoard 0 0 0 3 [1, -1] ∧
    agg_dx emptyBoard 0 0 0 3 [1, -1] = seq_dx emptyBoard 0 0 0 3 [1, -1] := by
  have hok : seq_ok emptyBoard 0 0 0 3 [1, -1] := ⟨by decide, by decide, trivial⟩
  exact ⟨hok, C5_queued_dx_drain_matches_sequential emptyBoard 0 0 0 3 [1, -1] hok⟩

theorem mbd_batch_le_next : ∀ (prev next : List (List Char)) (idx n : Nat),
    (mbd idx n prev next).1.length ≤ next.length := by
  intro prev
  induction prev with
  | nil =>
    intro next idx n
    simp [mbd]
  | cons p ps ih =>
    intro next idx n
    cases next with
    | nil => simp [mbd]
    | cons q qs =>
      unfold mbd
      by_cases hpq : p = q
      · rw [if_pos hpq]
        exact le_trans (ih qs (idx + 1) n) (Nat.le_succ _)
      · rw [if_neg hpq]
        by_cases hn : MAX_UPDATE_LINES ≤ n
        · rw [if_pos hn]
          simp
        · rw [if_neg hn]
          simpa using ih qs (idx + 1) (n + 1)

theorem rebuild_render_next_length (s : GState) :
    (rebuild_render_next s).length = BOARD_H := by
  simp [rebuild_render_next]

theorem batch_append_length (base bd : List (Nat × List Char))
    (hbase : base.length ≤ 1) (hbd : bd.length ≤ 10) :
    (base ++ bd.take (MAX_UPDATE_LINES - base.length)).length ≤ MAX_UPDATE_LINES ∧
    (base ++ bd.take (MAX_UPDATE_LINES - base.length)).length ≤ 11 := by
  unfold MAX_UPDATE_LINES
  rw [List.length_append, List.length_take]
  omega

/-- C4 amended: a single diff pass (status line plus board diff, as built by
request_diff_render) emits at most MAX_UPDATE_LINES = 16 updates, and in
fact at most 11 (one status line plus the BOARD_H = 10 board rows); board
rows skipped by the cap inside make_board_diff stay uncommitted in the
snapshot and are caught on a later pass. -/
theorem C4_diff_batch_bounded (rnd : Nat → Nat) (s : GState) (score_prev : List Char)
    (render_prev : List (List Char)) :
    (request_diff_batch rnd s score_prev render_prev).length ≤ MAX_UPDATE_LINES ∧
    (request_diff_batch rnd s score_prev render_prev).length ≤ 11 := by
  unfold request_diff_batch
  refine batch_append_length _ _ ?_ ?_
  · by_cases h : build_score_next s.score s.lines_cleared_total (bag_peek rnd s) s.hold_type
        = score_prev
    · rw [if_pos h]
      simp
    · rw [if_neg h]
      simp
  · unfold make_board_diff
    exact le_trans (mbd_batch_le_next render_prev (rebuild_render_next s) 0 0)
      (le_of_eq (rebuild_render_next_length s))

/-- Counterexample to C4 as stated: at the concrete reference value N = 10
the bound fails.  After a session reset with blank snapshots (the state
force_redraw_all produces), one diff pass emits 11 row/status updates:
the status line plus all ten board rows. -/
theorem C4_counterexample_batch_of_eleven :
    (request_diff_batch (fun _ => 0) freshState [] (List.replicate 10 [])).length = 11 ∧
    10 < (request_diff_batch (fun _ => 0) freshState [] (List.replicate 10 [])).length := by
  constructor <;> decide

theorem decDigit_digitChar (m : Nat) : decDigit (digitChar m) = m % 10 := by
  unfold digitChar decDigit
  generalize hdd : m % 10 = d
  have hd : d < 10 := by
    rw [← hdd]
    exact Nat.mod_lt _ (by norm_num)
  interval_cases d <;> decide

theorem build_score_next_clamped (score lines next_t : Nat) (hold_t : Int) :
    build_score_next score lines next_t hold_t =
      ['s', ' ',
       digitChar (min score 99999 / 10000), digitChar (min score 99999 / 1000),
       digitChar (min score 99999 / 100), digitChar (min score 99999 / 10),
       digitChar (min score 99999),
       ' ', 'l', ' ',
       digitChar (min lines 999 / 100), digitChar (min lines 999 / 10),
       digitChar (min lines 999),
       ' ', 'n', ' ', tet_char next_t,
       ' ', 'h', ' ', (if hold_t < 0 then '.' else tet_char hold_t.toNat),
       ' '] := by
  have hs : (if score > 99999 then 99999 else score) = min score 99999 := by
    split <;> omega
  have hl : (if lines > 999 then 999 else lines) = min lines 999 := by
    split <;> omega
  simp only [build_score_next, hs, hl]

/-- C9: the status-line builder always yields the fixed 22-character layout
s DDDDD l DDD n X h Y with a trailing space, where the five score digits
decode to the score clamped at 99999, the three line digits decode to the
line count clamped at 999, X is the next-piece letter and Y is the hold
letter or a dot; the clamping affects only the display (the builder of the
clamped values is the same function, inputs untouched). -/
theorem C9_status_line_format (score lines next_t : Nat) (hold_t : Int) :
    (build_score_next score lines next_t hold_t).length = 22 ∧
    build_score_next score lines next_t hold_t =
      build_score_next (min score 99999) (min lines 999) next_t hold_t ∧
    (build_score_next score lines next_t hold_t).getD 0 '!' = 's' ∧
    (build_score_next score lines next_t hold_t).getD 1 '!' = ' ' ∧
    (build_score_next score lines next_t hold_t).getD 7 '!' = ' ' ∧
    (build_score_next score lines next_t hold_t).getD 8 '!' = 'l' ∧
    (build_score_next score lines next_t hold_t).getD 9 '!' = ' ' ∧
    (build_score_next score lines next_t hold_t).getD 13 '!' = ' ' ∧
    (build_score_next score lines next_t hold_t).getD 14 '!' = 'n' ∧
    (build_score_next score lines next_t hold_t).getD 15 '!' = ' ' ∧
    (build_score_next score lines next_t hold_t).getD 16 '!' = tet_char next_t ∧
    (build_score_next score lines next_t hold_t).getD 17 '!' = ' ' ∧
    (build_score_next score lines next_t hold_t).getD 18 '!' = 'h' ∧
    (build_score_next score lines next_t hold_t).getD 19 '!' = ' ' ∧
    (build_score_next score lines next_t hold_t).getD 20 '!' =
      (if hold_t < 0 then '.' else tet_char hold_t.toNat) ∧
    (build_score_next score lines next_t hold_t).getD 21 '!' = ' ' ∧
    decDigit ((build_score_next score lines next_t hold_t).getD 2 '!') * 10000 +
      decDigit ((build_score_next score lines next_t hold_t).getD 3 '!') * 1000 +
      decDigit ((build_score_next score lines next_t hold_t).getD 4 '!') * 100 +
      decDigit ((build_score_next score lines next_t hold_t).getD 5 '!') * 10 +
      decDigit ((build_score_next score lines next_t hold_t).getD 6 '!') =
      min score 99999 ∧
    decDigit ((build_score_next score lines next_t hold_t).getD 10 '!') * 100 +
      decDigit ((build_score_next score lines next_t hold_t).getD 11 '!') * 10 +
      decDigit ((build_score_next score lines next_t hold_t).getD 12 '!') =
      min lines 999 := by
  rw [build_score_next_clamped score lines next_t hold_t]
  have hsb : min score 99999 ≤ 99999 := Nat.min_le_right ..
  have hlb : min lines 999 ≤ 999 := Nat.min_le_right ..
  refine ⟨rfl, ?_, rfl, rfl, rfl, rfl, rfl, rfl, rfl, rfl, rfl, rfl, rfl, rfl, rfl, rfl,
    ?_, ?_⟩
  · rw [build_score_next_clamped (min score 99999) (min lines 999) next_t hold_t]
    have h1 : min (min score 99999) 99999 = min score 99999 := by omega
    have h2 : min (min lines 999) 999 = min lines 999 := by omega
    rw [h1, h2]
  · show decDigit (digitChar (min score 99999 / 10000)) * 10000 +
      decDigit (digitChar (min score 99999 / 1000)) * 1000 +
      decDigit (digitChar (min score 99999 / 100)) * 100 +
      decDigit (digitChar (min score 99999 / 10)) * 10 +
      decDigit (digitChar (min score 99999)) = min score 99999
    rw [decDigit_digitChar, decDigit_digitChar, decDigit_digitChar, decDigit_digitChar,
      decDigit_digitChar]
    omega
  · show decDigit (digitChar (min lines 999 / 100)) * 100 +
      decDigit (digitChar (min lines 999 / 10)) * 10 +
      decDigit (digitChar (min lines 999)) = min lines 999
    rw [decDigit_digitChar, decDigit_digitChar, decDigit_digitChar]
    omega

theorem listSwap_length (l : List Nat) (i j : Nat) :
    (listSwap l i j).length = l.length := by
  unfold listSwap
  rw [List.length_set, List.length_set]

theorem listSwap_count (l : List Nat) (i j : Nat) (hi : i < l.length)
    (hj : j < l.length) (a : Nat) : (listSwap l i j).count a = l.count a := by
  unfold listSwap
  rw [List.getD_eq_getElem l 0 hj, List.getD_eq_getElem l 0 hi]
  have hj2 : j < (l.set i l[j]).length := by
    rw [List.length_set]
    exact hj
  rw [List.count_set _ _ _ _ hj2, List.count_set _ _ _ _ hi]
  have hval : (l.set i l[j])[j] = l[j] := by
    rw [List.getElem_set]
    split <;> rfl
  rw [hval]
  have hcb1 : l[i] = a → 0 < l.count a := fun he =>
    List.count_pos_iff.mpr (he ▸ List.getElem_mem hi)
  cases hb1 : (l[i] == a) with
  | true =>
    have hge := hcb1 (by simpa using hb1)
    cases hb2 : (l[j] == a) with
    | true => simp only [hb1, hb2, if_true]; omega
    | false => simp only [hb1, hb2, if_true, Bool.false_eq_true, if_false]; omega
  | false =>
    cases hb2 : (l[j] == a) with
    | true => simp only [hb1, hb2, if_true, Bool.false_eq_true, if_false]; omega
    | false => simp only [hb1, hb2, Bool.false_eq_true, if_false]; omega

theorem listSwap_perm (l : List Nat) (i j : Nat) (hi : i < l.length)
    (hj : j < l.length) : (listSwap l i j).Perm l := by
  rw [List.perm_iff_count]
  intro a
  exact listSwap_count l i j hi hj a

theorem fyAux_perm (rnd : Nat → Nat) :
    ∀ (i : Nat) (bag : List Nat), i < bag.length → (fyAux rnd i bag).Perm bag := by
  intro i
  induction i with
  | zero => intro bag _; exact List.Perm.refl _
  | succ i ih =>
    intro bag hi
    have hj : rnd (i + 1) % (i + 2) < bag.length :=
      lt_of_lt_of_le (Nat.mod_lt _ (by omega)) (by omega)
    have hswap := listSwap_perm bag (i + 1) (rnd (i + 1) % (i + 2)) hi hj
    have hlen : i < (listSwap bag (i + 1) (rnd (i + 1) % (i + 2))).length := by
      rw [listSwap_length]
      omega
    exact (ih _ hlen).trans hswap

theorem refill_and_shuffle_bag_perm (rnd : Nat → Nat) :
    (refill_and_shuffle_bag rnd).Perm (List.range 7) := by
  unfold refill_and_shuffle_bag
  exact fyAux_perm rnd 6 (List.range 7) (by simp)

theorem refill_and_shuffle_bag_length (rnd : Nat → Nat) :
    (refill_and_shuffle_bag rnd).length = 7 := by
  rw [(refill_and_shuffle_bag_perm rnd).length_eq]
  simp

theorem refill_and_shuffle_bag_mem_lt (rnd : Nat → Nat) :
    ∀ t ∈ refill_and_shuffle_bag rnd, t < 7 := by
  intro t ht
  have := ((refill_and_shuffle_bag_perm rnd).mem_iff).mp ht
  exact List.mem_range.mp this

theorem drawSeq_no_refill (rnd : Nat → Nat) :
    ∀ (n : Nat) (bag : List Nat) (idx : Nat), idx + n ≤ 7 → bag.length = 7 →
      drawSeq rnd n bag idx = (bag.drop idx).take n := by
  intro n
  induction n with
  | zero => intro bag idx _ _; simp [drawSeq]
  | succ n ih =>
    intro bag idx hle hlen
    have hidx : idx < bag.length := by omega
    unfold drawSeq bag_next_type
    rw [if_neg (by omega)]
    have hdrop : bag.drop idx = bag[idx] :: bag.drop (idx + 1) :=
      List.drop_eq_getElem_cons hidx
    rw [hdrop]
    simp only [List.take_succ_cons]
    rw [List.getD_eq_getElem bag 0 hidx, ih bag (idx + 1) (by omega) hlen]

/-- C6: for every value of the random source the refilled bag is a
permutation of the 7 piece kinds; a draw below the cursor cap pops without
reshuffling while a draw past the end reshuffles and restarts the cursor;
and the 7 consecutive draws after a reshuffle boundary are exactly the bag,
so each of the 7 kinds is drawn exactly once. -/
theorem C6_bag_is_permutation_and_fair (rnd rdraw : Nat → Nat) (bag : List Nat) (idx : Nat) :
    (refill_and_shuffle_bag rnd).Perm (List.range 7) ∧
    (idx < 7 → bag_next_type rdraw bag idx = (bag.getD idx 0, bag, idx + 1)) ∧
    (7 ≤ idx → bag_next_type rdraw bag idx =
      ((refill_and_shuffle_bag rdraw).getD 0 0, refill_and_shuffle_bag rdraw, 1)) ∧
    drawSeq rdraw 7 (refill_and_shuffle_bag rnd) 0 = refill_and_shuffle_bag rnd ∧
    (∀ t, t < 7 → (drawSeq rdraw 7 (refill_and_shuffle_bag rnd) 0).count t = 1) := by
  have hperm := refill_and_shuffle_bag_perm rnd
  have hlen := refill_and_shuffle_bag_length rnd
  have hdraws : drawSeq rdraw 7 (refill_and_shuffle_bag rnd) 0 = refill_and_shuffle_bag rnd := by
    rw [drawSeq_no_refill rdraw 7 _ 0 (by omega) hlen]
    rw [List.drop_zero]
    exact List.take_of_length_le (by omega)
  refine ⟨hperm, ?_, ?_, hdraws, ?_⟩
  · intro h
    unfold bag_next_type
    rw [if_neg (by omega)]
  · intro h
    unfold bag_next_type
    rw [if_pos h]
  · intro t ht
    rw [hdraws, hperm.count_eq t]
    exact List.count_eq_one_of_mem (List.nodup_range 7) (List.mem_range.mpr ht)

/-- Witness for C6 at the all-zero random source: the kind 3 is drawn
exactly once in the 7 draws after the reshuffle. -/
theorem C6_bag_is_permutation_and_fair_witness :
    drawSeq (fun _ => 0) 7 (refill_and_shuffle_bag (fun _ => 0)) 0 =
      refill_and_shuffle_bag (fun _ => 0) ∧
    (drawSeq (fun _ => 0) 7 (refill_and_shuffle_bag (fun _ => 0)) 0).count 3 = 1 := by
  have h := C6_bag_is_permutation_and_fair (fun _ => 0) (fun _ => 0) [] 0
  exact ⟨h.2.2.2.1, h.2.2.2.2 3 (by omega)⟩

theorem take_set_le {α : Type} (l : List α) (k m : Nat) (v : α) (h : m ≤ k) :
    (l.set k v).take m = l.take m := by
  apply List.ext_getElem?
  intro i
  rw [List.getElem?_take, List.getElem?_take]
  by_cases him : i < m
  · rw [if_pos him, if_pos him, List.getElem?_set, if_neg (by omega : ¬ k = i)]
  · rw [if_neg him, if_neg him]

theorem filter_range_succ (p : Nat → Bool) (n : Nat) :
    (List.range (n + 1)).filter p = (List.range n).filter p ++ (if p n then [n] else []) := by
  rw [List.range_succ, List.filter_append]
  congr 1
  simp [List.filter_cons]

theorem kcnt_succ_skip (mask n : Nat) (h : mask.testBit n = true) :
    kcnt mask (n + 1) = kcnt mask n := by
  unfold kcnt
  rw [filter_range_succ]
  simp [h]

theorem kcnt_succ_keep (mask n : Nat) (h : mask.testBit n = false) :
    kcnt mask (n + 1) = kcnt mask n + 1 := by
  unfold kcnt
  rw [filter_range_succ]
  simp [h]

theorem keptV_succ_skip (mask : Nat) (b : Board) (n : Nat) (h : mask.testBit n = true) :
    keptV mask b (n + 1) = keptV mask b n := by
  unfold keptV
  rw [filter_range_succ]
  simp [h]

theorem keptV_succ_keep (mask : Nat) (b : Board) (n : Nat) (h : mask.testBit n = false) :
    keptV mask b (n + 1) = keptV mask b n ++ [b.getD n []] := by
  unfold keptV
  rw [filter_range_succ]
  simp [h]

theorem kcnt_le (mask n : Nat) : kcnt mask n ≤ n := by
  unfold kcnt
  exact le_trans (List.length_filter_le _ _) (by simp)

theorem keptV_length (mask : Nat) (b : Board) (n : Nat) :
    (keptV mask b n).length = kcnt mask n := by
  simp [keptV, kcnt]

theorem keptV_set (mask : Nat) (b : Board) (n k : Nat) (hk : n ≤ k) (v : List Bool) :
    keptV mask (b.set k v) n = keptV mask b n := by
  unfold keptV
  apply List.map_congr_left
  intro i hi
  have hin : i < n := List.mem_range.mp (List.mem_of_mem_filter hi)
  exact getD_set_ne _ (by omega) _ _

theorem zeroTopRows_spec : ∀ (n : Nat) (l : Board), n ≤ l.length →
    zeroTopRows n l = List.replicate n zeroRow ++ l.drop n := by
  intro n
  induction n with
  | zero => intro l _; simp [zeroTopRows]
  | succ n ih =>
    intro l hn
    unfold zeroTopRows
    rw [ih (l.set n zeroRow) (by rw [List.length_set]; omega)]
    have hd : (l.set n zeroRow).drop n = zeroRow :: l.drop (n + 1) := by
      rw [List.drop_set, if_neg (by omega), Nat.sub_self,
        List.drop_eq_getElem_cons (show n < l.length by omega)]
      rfl
    rw [hd, List.replicate_succ']
    simp

theorem map_getD_range (l : Board) :
    (List.range l.length).map (fun i => l.getD i []) = l := by
  apply List.ext_getElem (by simp)
  intro i h1 h2
  simp only [List.getElem_map, List.getElem_range]
  exact List.getD_eq_getElem l [] h2

theorem compactAux_spec (mask : Nat) :
    ∀ (n : Nat) (dst : Int) (b : Board), b.length = BOARD_H →
      (n : Int) ≤ dst + 1 → dst < (BOARD_H : Int) →
      compactAux mask n dst b =
        (dst - kcnt mask n,
         b.take ((dst + 1 - (kcnt mask n : Int)).toNat) ++ keptV mask b n ++
           b.drop ((dst + 1).toNat)) := by
  intro n
  induction n with
  | zero =>
    intro dst b hb h1 h2
    unfold compactAux
    have hk : kcnt mask 0 = 0 := rfl
    have hv : keptV mask b 0 = [] := rfl
    rw [hk, hv]
    rw [Prod.mk.injEq]
    refine ⟨by omega, ?_⟩
    simp [List.take_append_drop]
  | succ n ih =>
    intro dst b hb h1 h2
    have hBH : BOARD_H = 10 := rfl
    have hBHi : (BOARD_H : Int) = 10 := rfl
    rw [hBH] at hb
    rw [hBHi] at h2
    have hnd : (n : Int) ≤ dst := by push_cast at h1 ⊢; omega
    have hkle := kcnt_le mask n
    unfold compactAux
    by_cases ht : mask.testBit n = true
    · rw [if_pos ht, ih dst b (by rw [hb, hBH]) (by omega) (by rw [hBHi]; omega)]
      rw [kcnt_succ_skip mask n ht, keptV_succ_skip mask b n ht]
    · rw [if_neg ht]
      have htf : mask.testBit n = false := Bool.eq_false_iff.mpr ht
      rw [kcnt_succ_keep mask n htf, keptV_succ_keep mask b n htf]
      by_cases hd : dst = (n : Int)
      · rw [if_pos hd]
        rw [ih (dst - 1) b (by rw [hb, hBH]) (by omega) (by rw [hBHi]; omega)]
        rw [Prod.mk.injEq]
        refine ⟨by push_cast; omega, ?_⟩
        push_cast
        have harg1 : (dst - 1 + 1 - (kcnt mask n : Int)).toNat =
            (dst + 1 - ((kcnt mask n : Int) + 1)).toNat := by omega
        have harg2 : (dst - 1 + 1).toNat = dst.toNat := by omega
        rw [harg1, harg2]
        have hdrop : b.drop dst.toNat = b.getD n [] :: b.drop ((dst + 1).toNat) := by
          have hdn : dst.toNat = n := by omega
          have hdn2 : (dst + 1).toNat = n + 1 := by omega
          rw [hdn, hdn2, List.drop_eq_getElem_cons (show n < b.length by omega),
            List.getD_eq_getElem b [] (show n < b.length by omega)]
        rw [hdrop]
        simp [List.append_assoc]
      · rw [if_neg hd]
        have hdgt : (n : Int) < dst := lt_of_le_of_ne hnd (fun he => hd he.symm)
        have hlen1 : (b.set dst.toNat (b.getD n [])).length = BOARD_H := by
          rw [List.length_set, hb, hBH]
        rw [ih (dst - 1) _ hlen1 (by omega) (by rw [hBHi]; omega)]
        rw [Prod.mk.injEq]
        refine ⟨by push_cast; omega, ?_⟩
        push_cast
        have harg1 : (dst - 1 + 1 - (kcnt mask n : Int)).toNat =
            (dst - (kcnt mask n : Int)).toNat := by omega
        have harg2 : (dst - 1 + 1).toNat = dst.toNat := by omega
        rw [harg1, harg2]
        have e1 : (b.set dst.toNat (b.getD n [])).take ((dst - (kcnt mask n : Int)).toNat) =
            b.take ((dst - (kcnt mask n : Int)).toNat) :=
          take_set_le _ _ _ _ (by omega)
        have e2 : keptV mask (b.set dst.toNat (b.getD n [])) n = keptV mask b n :=
          keptV_set mask b n dst.toNat (by omega) _
        have e3 : (b.set dst.toNat (b.getD n [])).drop dst.toNat =
            b.getD n [] :: b.drop ((dst + 1).toNat) := by
          have hdn2 : (dst + 1).toNat = dst.toNat + 1 := by omega
          rw [hdn2, List.drop_set, if_neg (by omega), Nat.sub_self,
            List.drop_eq_getElem_cons (show dst.toNat < b.length by omega)]
          rfl
        rw [e1, e2, e3]
        have harg3 : (dst + 1 - ((kcnt mask n : Int) + 1)).toNat =
            (dst - (kcnt mask n : Int)).toNat := by omega
        rw [harg3]
        simp [List.append_assoc]

theorem apply_line_clear_spec (mask : Nat) (b : Board) (hb : b.length = BOARD_H) :
    apply_line_clear mask b =
      List.replicate (BOARD_H - (keptRows mask b).length) zeroRow ++ keptRows mask b := by
  have hkeq : keptRows mask b = keptV mask b BOARD_H := rfl
  have hklen : (keptRows mask b).length = kcnt mask BOARD_H := by
    rw [hkeq, keptV_length]
  by_cases h0 : mask = 0
  · subst h0
    unfold apply_line_clear
    rw [if_pos rfl]
    have hfull : keptRows 0 b = b := by
      unfold keptRows
      have : ∀ i, (Nat.testBit 0 i) = false := Nat.zero_testBit
      simp only [this, Bool.not_false, List.filter_eq_self.mpr (fun a _ => rfl)]
      rw [← hb]
      exact map_getD_range b
    rw [hfull, hb]
    simp
  · unfold apply_line_clear
    rw [if_neg h0]
    have hk10 := kcnt_le mask BOARD_H
    have hBH : BOARD_H = 10 := rfl
    rw [compactAux_spec mask BOARD_H ((BOARD_H : Int) - 1) b hb (by omega) (by omega)]
    dsimp only
    have harg : ((BOARD_H : Int) - 1 + 1).toNat = BOARD_H := by decide
    have hdropnil : b.drop BOARD_H = [] := by
      rw [← hb]
      exact List.drop_length b
    rw [harg, hdropnil, List.append_nil]
    have harg2 : ((BOARD_H : Int) - 1 + 1 - (kcnt mask BOARD_H : Int)).toNat =
        BOARD_H - kcnt mask BOARD_H := by omega
    rw [harg2]
    have harg3 : ((BOARD_H : Int) - 1 - (kcnt mask BOARD_H : Int) + 1).toNat =
        BOARD_H - kcnt mask BOARD_H := by omega
    rw [harg3]
    have hlenpre : (b.take (BOARD_H - kcnt mask BOARD_H)).length =
        BOARD_H - kcnt mask BOARD_H := by
      rw [List.length_take]
      omega
    have hlen : BOARD_H - kcnt mask BOARD_H ≤
        (b.take (BOARD_H - kcnt mask BOARD_H) ++ keptV mask b BOARD_H).length := by
      rw [List.length_append, hlenpre]
      omega
    rw [zeroTopRows_spec _ _ hlen]
    have hdropapp : (b.take (BOARD_H - kcnt mask BOARD_H) ++ keptV mask b BOARD_H).drop
        (BOARD_H - kcnt mask BOARD_H) = keptV mask b BOARD_H := by
      have hdl := List.drop_left (b.take (BOARD_H - kcnt mask BOARD_H))
        (keptV mask b BOARD_H)
      rwa [hlenpre] at hdl
    rw [hdropapp, hklen, hkeq]

/-- C2: for every 10-row board and every row bitmask, including
non-contiguous masks, apply_line_clear keeps exactly the rows whose mask bit
is clear, moves them to the bottom in their original relative order, and
zero-fills the vacated top rows; on the concrete board with exactly rows
2, 5 and 7 full, detect_full_lines returns the mask with bits 2, 5, 7 and
compaction removes those rows, shifts the others down in order and leaves
the top three rows empty. -/
theorem C2_apply_line_clear_compacts (mask : Nat) (b : Board) (hb : b.length = BOARD_H) :
    apply_line_clear mask b =
      List.replicate (BOARD_H - (keptRows mask b).length) zeroRow ++ keptRows mask b ∧
    detect_full_lines boardC2 = 2 ^ 2 + 2 ^ 5 + 2 ^ 7 ∧
    apply_line_clear (detect_full_lines boardC2) boardC2 =
      List.replicate 3 zeroRow ++
        [boardC2.getD 0 [], boardC2.getD 1 [], boardC2.getD 3 [], boardC2.getD 4 [],
         boardC2.getD 6 [], boardC2.getD 8 [], boardC2.getD 9 []] :=
  ⟨apply_line_clear_spec mask b hb, by decide, by decide⟩

/-- Witness for C2 at the concrete board: the general characterization
instantiated at the mask of rows 2, 5, 7. -/
theorem C2_apply_line_clear_compacts_witness :
    apply_line_clear 164 boardC2 =
      List.replicate (BOARD_H - (keptRows 164 boardC2).length) zeroRow ++
        keptRows 164 boardC2 ∧
    detect_full_lines boardC2 = 2 ^ 2 + 2 ^ 5 + 2 ^ 7 ∧
    apply_line_clear (detect_full_lines boardC2) boardC2 =
      List.replicate 3 zeroRow ++
        [boardC2.getD 0 [], boardC2.getD 1 [], boardC2.getD 3 [], boardC2.getD 4 [],
         boardC2.getD 6 [], boardC2.getD 8 [], boardC2.getD 9 []] :=
  C2_apply_line_clear_compacts 164 boardC2 (by decide)

theorem wipe_board_cell (b : Board) (r c : Nat) : cellAt (wipe_board b) r c = false := by
  simp only [cellAt, wipe_board, List.getD_eq_getElem?_getD, List.getElem?_map]
  cases hb : b[r]? with
  | none => rfl
  | some row =>
    simp only [Option.map_some']
    cases hc : row[c]? with
    | none => simp [List.getD_eq_getElem?_getD, List.getElem?_map, hc]
    | some v => simp [List.getD_eq_getElem?_getD, List.getElem?_map, hc]

theorem wipe_board_wf {b : Board} (h : boardWF b) : boardWF (wipe_board b) := by
  obtain ⟨hlen, hrows⟩ := h
  constructor
  · rw [wipe_board, List.length_map]
    exact hlen
  · intro row hrow
    rcases List.mem_map.mp hrow with ⟨orig, horig, rfl⟩
    rw [List.length_map]
    exact hrows orig horig

theorem can_place_spawn_all_false (b : Board) (t rot : Nat)
    (hcells : ∀ r c, cellAt b r c = false) : can_place b t rot 3 0 = true := by
  rw [can_place_iff]
  intro r hr c hc _
  have hW : (BOARD_W : Int) = 10 := rfl
  have hH : (BOARD_H : Int) = 10 := rfl
  refine ⟨by omega, by rw [hW]; omega, by omega, by rw [hH]; omega, hcells _ _⟩

theorem apply_line_clear_wf (mask : Nat) {b : Board} (h : boardWF b) :
    boardWF (apply_line_clear mask b) := by
  obtain ⟨hlen, hrows⟩ := h
  rw [apply_line_clear_spec mask b hlen]
  have hk := kcnt_le mask BOARD_H
  have hkl : (keptRows mask b).length = kcnt mask BOARD_H := by
    rw [show keptRows mask b = keptV mask b BOARD_H from rfl, keptV_length]
  constructor
  · rw [List.length_append, List.length_replicate, hkl]
    have hBH : BOARD_H = 10 := rfl
    omega
  · intro row hrow
    rcases List.mem_append.mp hrow with h1 | h2
    · rw [List.eq_of_mem_replicate h1]
      simp [zeroRow]
    · unfold keptRows at h2
      rcases List.mem_map.mp h2 with ⟨i, hi, rfl⟩
      have hilt : i < BOARD_H := List.mem_range.mp (List.mem_of_mem_filter hi)
      rw [List.getD_eq_getElem b [] (by omega)]
      exact hrows _ (List.getElem_mem _)

set_option maxHeartbeats 1000000 in
theorem spawn_piece_spec (ra rb : Nat → Nat) (s : GState) (hwf : boardWF s.board)
    (hbag : ∀ t ∈ s.bag, t < 7) :
    boardWF (spawn_piece ra rb s).board ∧
    (∀ t ∈ (spawn_piece ra rb s).bag, t < 7) ∧
    can_place (spawn_piece ra rb s).board (spawn_piece ra rb s).falling.type
      (spawn_piece ra rb s).falling.rot (spawn_piece ra rb s).falling.x
      (spawn_piece ra rb s).falling.y = true ∧
    (spawn_piece ra rb s).clearing = s.clearing ∧
    (spawn_piece ra rb s).has_falling = s.has_falling ∧
    (spawn_piece ra rb s).score = s.score ∧
    (spawn_piece ra rb s).lines_cleared_total = s.lines_cleared_total ∧
    (spawn_piece ra rb s).hold_used = false := by
  unfold spawn_piece bag_next bag_next_type
  by_cases hidx : 7 ≤ s.bag_idx
  · simp only [if_pos hidx]
    by_cases hcp : can_place s.board ((refill_and_shuffle_bag ra).getD 0 0) 0 3 0 = true
    · simp only [if_pos hcp]
      refine ⟨hwf, refill_and_shuffle_bag_mem_lt ra, hcp, ?_, ?_, ?_, ?_, ?_⟩ <;> trivial
    · simp only [if_neg hcp, if_neg (by omega : ¬ (7 : Nat) ≤ 0)]
      refine ⟨wipe_board_wf hwf, refill_and_shuffle_bag_mem_lt rb,
        can_place_spawn_all_false _ _ _ (wipe_board_cell s.board), ?_, ?_, ?_, ?_, ?_⟩ <;>
        trivial
  · simp only [if_neg hidx]
    by_cases hcp : can_place s.board (s.bag.getD s.bag_idx 0) 0 3 0 = true
    · simp only [if_pos hcp]
      refine ⟨hwf, hbag, hcp, ?_, ?_, ?_, ?_, ?_⟩ <;> trivial
    · simp only [if_neg hcp, if_neg (by omega : ¬ (7 : Nat) ≤ 0)]
      refine ⟨wipe_board_wf hwf, refill_and_shuffle_bag_mem_lt rb,
        can_place_spawn_all_false _ _ _ (wipe_board_cell s.board), ?_, ?_, ?_, ?_, ?_⟩ <;>
        trivial

theorem do_fall_one_inv {s : GState} (h : Inv s) : Inv (do_fall_one s).1 := by
  obtain ⟨hwf, hbag, hcl, hcp⟩ := h
  unfold do_fall_one
  by_cases hc : (s.has_falling &&
      can_place s.board s.falling.type s.falling.rot s.falling.x (s.falling.y + 1)) = true
  · rw [if_pos hc]
    obtain ⟨hf, hpl⟩ := Bool.and_eq_true_iff.mp hc
    refine ⟨hwf, hbag, ?_, ?_⟩
    · intro hcl2
      exact absurd (hcl hcl2) (by simp [hf])
    · intro _
      exact hpl
  · rw [if_neg hc]
    exact ⟨hwf, hbag, hcl, hcp⟩

theorem on_piece_landed_inv {s : GState} (h : Inv s) : Inv (on_piece_landed s) := by
  obtain ⟨hwf, hbag, _, _⟩ := h
  unfold on_piece_landed lock_fallingS begin_clear_animationS begin_spawn_delayS
  by_cases hm : detect_full_lines
      (lock_falling s.board s.falling.type s.falling.rot s.falling.x s.falling.y) ≠ 0
  · rw [if_pos hm]
    exact ⟨lock_falling_wf hwf _ _ _ _, hbag, fun _ => rfl, fun hh => by cases hh⟩
  · rw [if_neg hm]
    exact ⟨lock_falling_wf hwf _ _ _ _, hbag, fun _ => rfl, fun hh => by cases hh⟩

theorem on_piece_landed_has_falling (s : GState) :
    (on_piece_landed s).has_falling = false := by
  unfold on_piece_landed lock_fallingS begin_clear_animationS begin_spawn_delayS
  by_cases hm : detect_full_lines
      (lock_falling s.board s.falling.type s.falling.rot s.falling.x s.falling.y) ≠ 0
  · rw [if_pos hm]
  · rw [if_neg hm]

theorem fall_repeat_inv : ∀ (n : Nat) {s : GState}, Inv s → Inv (fall_repeat n s) := by
  intro n
  induction n with
  | zero => intro s h; exact h
  | succ n ih =>
    intro s h
    unfold fall_repeat
    by_cases hr : (do_fall_one s).2 = true
    · rw [if_pos hr]
      exact ih (do_fall_one_inv h)
    · rw [if_neg hr]
      exact h

theorem hard_drop_and_land_inv {s : GState} (h : Inv s) : Inv (hard_drop_and_land s) := by
  unfold hard_drop_and_land
  by_cases hf : s.has_falling = true
  · rw [if_pos hf]
    exact on_piece_landed_inv (fall_repeat_inv 20 h)
  · rw [if_neg hf]
    exact h

theorem fall_or_land_inv {s : GState} (h : Inv s) : Inv (fall_or_land s) := by
  unfold fall_or_land
  by_cases hr : (do_fall_one s).2 = true
  · rw [if_pos hr]
    exact do_fall_one_inv h
  · rw [if_neg hr]
    apply on_piece_landed_inv
    obtain ⟨hwf, hbag, hcl, hcp⟩ := h
    exact ⟨hwf, hbag, hcl, hcp⟩

theorem on_user_dx_inv {s : GState} (dx : Int) (h : Inv s) : Inv (on_user_dx dx s) := by
  obtain ⟨hwf, hbag, hcl, hcp⟩ := h
  unfold on_user_dx
  by_cases hf : s.has_falling = true
  · rw [if_pos hf]
    by_cases hc : can_place s.board s.falling.type s.falling.rot (s.falling.x + dx)
        s.falling.y = true
    · rw [if_pos hc]
      refine ⟨hwf, hbag, ?_, fun _ => hc⟩
      intro hcl2
      exact absurd (hcl hcl2) (by simp [hf])
    · rw [if_neg hc]
      exact ⟨hwf, hbag, hcl, hcp⟩
  · rw [if_neg hf]
    exact ⟨hwf, hbag, hcl, hcp⟩

theorem try_rotate_some_can_place {b : Board} {p : Piece} {dir : Int} {q : Piece}
    (h : try_rotate b p dir = some q) : can_place b q.type q.rot q.x q.y = true := by
  unfold try_rotate at h
  by_cases ht : p.type = 1
  · rw [if_pos ht] at h
    by_cases hc : can_place b p.type
        (if 0 < dir then (p.rot % 4 + 1) % 4 else (p.rot % 4 + 3) % 4) p.x p.y = true
    · rw [if_pos hc] at h
      cases h
      exact hc
    · rw [if_neg hc] at h
      cases h
  · rw [if_neg ht, tryKicks_eq_find] at h
    rcases Option.map_eq_some'.mp h with ⟨k, hk, rfl⟩
    have := List.find?_some hk
    simpa using this

theorem on_user_rotate_inv {s : GState} (dir : Int) (h : Inv s) :
    Inv (on_user_rotate dir s) := by
  obtain ⟨hwf, hbag, hcl, hcp⟩ := h
  unfold on_user_rotate
  by_cases hf : s.has_falling = true
  · rw [if_pos hf]
    cases hq : try_rotate s.board s.falling dir with
    | none => exact ⟨hwf, hbag, hcl, hcp⟩
    | some q =>
      refine ⟨hwf, hbag, ?_, fun _ => try_rotate_some_can_place hq⟩
      intro hcl2
      exact absurd (hcl hcl2) (by simp [hf])
  · rw [if_neg hf]
    exact ⟨hwf, hbag, hcl, hcp⟩

theorem spawn_activate_inv (ra rb : Nat → Nat) (x : GState) (hwf : boardWF x.board)
    (hbag : ∀ t ∈ x.bag, t < 7) (hclx : x.clearing = false) :
    Inv { spawn_piece ra rb x with has_falling := true } := by
  have hspec := spawn_piece_spec ra rb x hwf hbag
  refine ⟨hspec.1, hspec.2.1, ?_, fun _ => hspec.2.2.1⟩
  intro hcl2
  have hcl3 : (spawn_piece ra rb x).clearing = true := hcl2
  rw [hspec.2.2.2.1, hclx] at hcl3
  cases hcl3

theorem hold_spawn_inv (ra rb : Nat → Nat) (x : GState) (hwf : boardWF x.board)
    (hbag : ∀ t ∈ x.bag, t < 7) (hclx : x.clearing = false) :
    Inv { spawn_piece ra rb x with hold_used := true, has_falling := true } := by
  have hspec := spawn_piece_spec ra rb x hwf hbag
  refine ⟨hspec.1, hspec.2.1, ?_, fun _ => hspec.2.2.1⟩
  intro hcl2
  have hcl3 : (spawn_piece ra rb x).clearing = true := hcl2
  rw [hspec.2.2.2.1, hclx] at hcl3
  cases hcl3

theorem activate_inv (x : GState) (hwf : boardWF x.board) (hbag : ∀ t ∈ x.bag, t < 7)
    (hclx : x.clearing = false)
    (hcp : can_place x.board x.falling.type x.falling.rot x.falling.x x.falling.y = true) :
    Inv { x with hold_used := true, has_falling := true } := by
  refine ⟨hwf, hbag, ?_, fun _ => hcp⟩
  intro hcl2
  have hcl3 : x.clearing = true := hcl2
  rw [hclx] at hcl3
  cases hcl3

set_option maxHeartbeats 1000000 in
theorem do_hold_action_inv (ra rb rc rd : Nat → Nat) {s : GState}
    (hclear : s.clearing = false) (h : Inv s) : Inv (do_hold_action ra rb rc rd s) := by
  obtain ⟨hwf, hbag, hcl, hcp⟩ := h
  unfold do_hold_action
  cases hfv : s.has_falling with
  | false =>
    rw [if_pos (by rfl : (!false) = true)]
    exact ⟨hwf, hbag, hcl, hcp⟩
  | true =>
    rw [if_neg (by simp : ¬ (!true) = true)]
    cases huv : s.hold_used with
    | true =>
      rw [if_pos (rfl : true = true)]
      exact ⟨hwf, hbag, hcl, hcp⟩
    | false =>
      rw [if_neg (by simp : ¬ false = true)]
      dsimp only
      by_cases hht : s.hold_type < 0
      · rw [if_pos hht]
        exact hold_spawn_inv ra rb _ hwf hbag hclear
      · rw [if_neg hht]
        by_cases hcsw : can_place s.board s.hold_type.toNat 0 3 0 = true
        · rw [if_pos hcsw]
          exact activate_inv _ hwf hbag hclear hcsw
        · rw [if_neg hcsw]
          exact hold_spawn_inv rd ra _ (wipe_board_wf hwf)
            (refill_and_shuffle_bag_mem_lt rc) hclear

theorem spawn_tick_inv (ra rb : Nat → Nat) {s : GState} (hclear : s.clearing = false)
    (h : Inv s) : Inv (spawn_tick ra rb s) :=
  spawn_activate_inv ra rb s h.1 h.2.1 hclear

theorem clear_finish_inv {s : GState} (h : Inv s) : Inv (clear_finish s) := by
  obtain ⟨hwf, hbag, _, _⟩ := h
  unfold clear_finish begin_spawn_delayS
  refine ⟨apply_line_clear_wf _ hwf, hbag, fun _ => rfl, ?_⟩
  intro hh
  cases hh

theorem clear_blink_inv {s : GState} (h : Inv s) : Inv (clear_blink s) := by
  obtain ⟨hwf, hbag, hcl, hcp⟩ := h
  exact ⟨hwf, hbag, hcl, hcp⟩

theorem reset_game_inv (ra rb rc : Nat → Nat) : Inv (reset_game ra rb rc) := by
  unfold reset_game
  refine spawn_activate_inv rb rc _ ?_ ?_ ?_
  · show boardWF emptyBoard
    decide
  · exact refill_and_shuffle_bag_mem_lt ra
  · rfl

set_option maxHeartbeats 1000000 in
theorem step_inv {s s' : GState} (hstep : Step s s') (h : Inv s) : Inv s' := by
  cases hstep with
  | move dx _ => exact on_user_dx_inv dx h
  | rotate dir _ => exact on_user_rotate_inv dir h
  | gravity _ _ => exact fall_or_land_inv h
  | softDrop _ _ => exact fall_or_land_inv h
  | hardDrop _ =>
    exact hard_drop_and_land_inv ⟨h.1, h.2.1, h.2.2.1, h.2.2.2⟩
  | hold ra rb rc rd hcl => exact do_hold_action_inv ra rb rc rd hcl h
  | spawnFire ra rb hcl => exact spawn_tick_inv ra rb hcl h
  | clearFire _ => exact clear_finish_inv h
  | blink _ => exact clear_blink_inv h

theorem reachable_inv {s : GState} (h : Reachable s) : Inv s := by
  obtain ⟨ra, rb, rc, hrtg⟩ := h
  induction hrtg with
  | refl => exact reset_game_inv ra rb rc
  | tail _ hstep ih => exact step_inv hstep ih

/-- C1: in every reachable state with an active piece, each occupied cell of
the 4x4 mask of its kind at its current rotation, offset by the piece
position, lies inside the board and on an unlocked cell; the invariant is
established by spawn and carried through horizontal moves, rotations,
gravity steps, soft drops, hard drops, holds, spawn and clear ticks, all of
which mutate the piece only behind a successful can_place check. -/
theorem C1_active_piece_in_bounds_and_unlocked {s : GState} (hreach : Reachable s)
    (hf : s.has_falling = true) (r c : Nat) (hr : r < 4) (hc : c < 4)
    (hm : mask_has (SHAPE s.falling.type (s.falling.rot % 4)) r c = true) :
    0 ≤ s.falling.x + (c : Int) ∧ s.falling.x + (c : Int) < (BOARD_W : Int) ∧
    0 ≤ s.falling.y + (r : Int) ∧ s.falling.y + (r : Int) < (BOARD_H : Int) ∧
    cellAt s.board (s.falling.y + (r : Int)).toNat (s.falling.x + (c : Int)).toNat = false := by
  have hinv := reachable_inv hreach
  exact (can_place_iff _ _ _ _ _).mp (hinv.2.2.2 hf) r hr c hc hm

/-- Witness for C1: the freshly reset session holds an active O piece at the
spawn position; its occupied mask cell (1, 1) sits in bounds on an unlocked
cell. -/
theorem C1_active_piece_in_bounds_and_unlocked_witness :
    0 ≤ freshState.falling.x + ((1 : Nat) : Int) ∧
    freshState.falling.x + ((1 : Nat) : Int) < (BOARD_W : Int) ∧
    0 ≤ freshState.falling.y + ((1 : Nat) : Int) ∧
    freshState.falling.y + ((1 : Nat) : Int) < (BOARD_H : Int) ∧
    cellAt freshState.board (freshState.falling.y + ((1 : Nat) : Int)).toNat
      (freshState.falling.x + ((1 : Nat) : Int)).toNat = false :=
  C1_active_piece_in_bounds_and_unlocked
    ⟨fun _ => 0, fun _ => 0, fun _ => 0, Relation.ReflTransGen.refl⟩
    (by decide) 1 1 (by decide) (by decide) (by decide)

theorem popcount16_pos {m : Nat} (h : m ≠ 0) (hlt : m < 65536) : 1 ≤ popcount16 m := by
  unfold popcount16
  rw [Nat.mod_eq_of_lt hlt]
  unfold popcount_aux
  rw [if_neg h]
  omega

theorem detect_full_lines_lt (b : Board) : detect_full_lines b < 1024 := by
  unfold detect_full_lines
  have hgen : ∀ (l : List Nat) (m : Nat), (∀ r ∈ l, r < 10) → m < 1024 →
      (l.foldl (fun mask r =>
        if (List.range BOARD_W).all (fun c => cellAt b r c) then mask ||| (1 <<< r)
        else mask) m) < 1024 := by
    intro l
    induction l with
    | nil => intro m _ hm; exact hm
    | cons r l ih =>
      intro m hl hm
      rw [List.foldl_cons]
      refine ih _ (fun x hx => hl x (List.mem_cons_of_mem _ hx)) ?_
      by_cases hful : (List.range BOARD_W).all (fun c => cellAt b r c) = true
      · rw [if_pos hful]
        have hr : r < 10 := hl r (List.mem_cons_self ..)
        have h1 : (1 <<< r) < 2 ^ 10 := by
          rw [Nat.one_shiftLeft]
          exact Nat.pow_lt_pow_right (by omega) hr
        have h2 : m < 2 ^ 10 := by
          norm_num
          omega
        have h3 := Nat.or_lt_two_pow h2 h1
        norm_num at h3
        exact h3
      · rw [if_neg hful]
        exact hm
  refine hgen _ 0 ?_ (by omega)
  intro r hr
  exact List.mem_range.mp hr

set_option maxHeartbeats 1000000 in
theorem spawn_piece_score (ra rb : Nat → Nat) (s : GState) :
    (spawn_piece ra rb s).score = s.score ∧
    (spawn_piece ra rb s).lines_cleared_total = s.lines_cleared_total := by
  unfold spawn_piece bag_next bag_next_type
  by_cases hidx : 7 ≤ s.bag_idx
  · simp only [if_pos hidx]
    by_cases hcp : can_place s.board ((refill_and_shuffle_bag ra).getD 0 0) 0 3 0 = true
    · simp only [if_pos hcp]
      refine ⟨?_, ?_⟩ <;> trivial
    · simp only [if_neg hcp, if_neg (by omega : ¬ (7 : Nat) ≤ 0)]
      refine ⟨?_, ?_⟩ <;> trivial
  · simp only [if_neg hidx]
    by_cases hcp : can_place s.board (s.bag.getD s.bag_idx 0) 0 3 0 = true
    · simp only [if_pos hcp]
      refine ⟨?_, ?_⟩ <;> trivial
    · simp only [if_neg hcp, if_neg (by omega : ¬ (7 : Nat) ≤ 0)]
      refine ⟨?_, ?_⟩ <;> trivial

set_option maxHeartbeats 1000000 in
theorem spawn_piece_hold_used (ra rb : Nat → Nat) (s : GState) :
    (spawn_piece ra rb s).hold_used = false := by
  unfold spawn_piece bag_next bag_next_type
  by_cases hidx : 7 ≤ s.bag_idx
  · simp only [if_pos hidx]
    by_cases hcp : can_place s.board ((refill_and_shuffle_bag ra).getD 0 0) 0 3 0 = true
    · simp only [if_pos hcp]
    · simp only [if_neg hcp, if_neg (by omega : ¬ (7 : Nat) ≤ 0)]
  · simp only [if_neg hidx]
    by_cases hcp : can_place s.board (s.bag.getD s.bag_idx 0) 0 3 0 = true
    · simp only [if_pos hcp]
    · simp only [if_neg hcp, if_neg (by omega : ¬ (7 : Nat) ≤ 0)]

set_option maxHeartbeats 1000000 in
theorem do_hold_action_score (ra rb rc rd : Nat → Nat) (s : GState) :
    (do_hold_action ra rb rc rd s).score = s.score := by
  unfold do_hold_action
  cases hfv : s.has_falling with
  | false => rw [if_pos (by rfl : (!false) = true)]
  | true =>
    rw [if_neg (by simp : ¬ (!true) = true)]
    cases huv : s.hold_used with
    | true => rw [if_pos (rfl : true = true)]
    | false =>
      rw [if_neg (by simp : ¬ false = true)]
      dsimp only
      by_cases hht : s.hold_type < 0
      · rw [if_pos hht]
        exact (spawn_piece_score ra rb _).1
      · rw [if_neg hht]
        by_cases hcsw : can_place s.board s.hold_type.toNat 0 3 0 = true
        · rw [if_pos hcsw]
        · rw [if_neg hcsw]
          exact (spawn_piece_score rd ra _).1

theorem on_piece_landed_score (s : GState)
    (hm : detect_full_lines (lock_falling s.board s.falling.type s.falling.rot
      s.falling.x s.falling.y) ≠ 0) :
    (on_piece_landed s).score = (s.score +
      score_tbl (popcount16 (detect_full_lines (lock_falling s.board s.falling.type
        s.falling.rot s.falling.x s.falling.y)))) % 4294967296 ∧
    (on_piece_landed s).lines_cleared_total = (s.lines_cleared_total +
      popcount16 (detect_full_lines (lock_falling s.board s.falling.type
        s.falling.rot s.falling.x s.falling.y))) % 65536 := by
  unfold on_piece_landed lock_fallingS begin_clear_animationS begin_spawn_delayS
  rw [if_pos hm]
  exact ⟨rfl, rfl⟩

set_option maxRecDepth 10000 in
/-- Counterexample to C7 as stated: with the uint16_t total-lines counter at
65535, landing the prepared single-line clear wraps the counter to 0, so it
does not increase by exactly k = 1 (that would give 65536). -/
theorem C7_counterexample_lines_counter_wraps :
    popcount16 (detect_full_lines (lock_falling wrapState.board wrapState.falling.type
      wrapState.falling.rot wrapState.falling.x wrapState.falling.y)) = 1 ∧
    wrapState.lines_cleared_total = 65535 ∧
    (on_piece_landed wrapState).lines_cleared_total = 0 ∧
    (on_piece_landed wrapState).lines_cleared_total ≠ wrapState.lines_cleared_total + 1 :=
  ⟨by decide, by decide, by decide, by decide⟩

set_option maxRecDepth 10000 in
/-- C7 amended: a landing that completes k full rows, 1 <= k, updates the
score to (score + reward for k) mod 2 to the 32 and the total-lines counter
to (lines + k) mod 2 to the 16 - the machine arithmetic of the uint32_t and
uint16_t counters - so the increments are exactly the reward-table value
(1 gives 100, 2 gives 300, 3 gives 500, 4 gives 800) and exactly k whenever
the respective counter does not wrap; k is the popcount of the detected
full-row mask (and popcount agrees with the number of set mask bits, masks
being below 2 to the 10); no other operation - horizontal move, rotation,
gravity step, spawn, hold, clear compaction or blink - changes the score. -/
theorem C7_landing_reward_and_score_isolation (s : GState) (ra rb rc rd : Nat → Nat)
    (dx dir : Int) :
    (∀ k, k = popcount16 (detect_full_lines (lock_falling s.board s.falling.type
        s.falling.rot s.falling.x s.falling.y)) →
      1 ≤ k →
      (on_piece_landed s).score = (s.score + score_tbl k) % 4294967296 ∧
      (on_piece_landed s).lines_cleared_total = (s.lines_cleared_total + k) % 65536 ∧
      (s.score + score_tbl k < 4294967296 →
        (on_piece_landed s).score = s.score + score_tbl k) ∧
      (s.lines_cleared_total + k < 65536 →
        (on_piece_landed s).lines_cleared_total = s.lines_cleared_total + k)) ∧
    score_tbl 1 = 100 ∧ score_tbl 2 = 300 ∧ score_tbl 3 = 500 ∧ score_tbl 4 = 800 ∧
    (∀ m, m < 1024 →
      popcount16 m = ((List.range BOARD_H).filter (fun r => m.testBit r)).length) ∧
    detect_full_lines s.board < 1024 ∧
    (on_user_dx dx s).score = s.score ∧
    (on_user_rotate dir s).score = s.score ∧
    ((do_fall_one s).1).score = s.score ∧
    (spawn_piece ra rb s).score = s.score ∧
    (spawn_tick ra rb s).score = s.score ∧
    (do_hold_action ra rb rc rd s).score = s.score ∧
    (clear_finish s).score = s.score ∧
    (clear_blink s).score = s.score := by
  refine ⟨?_, rfl, rfl, rfl, rfl, by decide, detect_full_lines_lt s.board, ?_, ?_, ?_,
    (spawn_piece_score ra rb s).1, (spawn_piece_score ra rb s).1,
    do_hold_action_score ra rb rc rd s, rfl, rfl⟩
  · intro k hk h1
    have hm : detect_full_lines (lock_falling s.board s.falling.type s.falling.rot
        s.falling.x s.falling.y) ≠ 0 := by
      intro h0
      rw [h0] at hk
      have : popcount16 0 = 0 := rfl
      omega
    subst hk
    have hs := on_piece_landed_score s hm
    refine ⟨hs.1, hs.2, fun hlt => ?_, fun hlt => ?_⟩
    · rw [hs.1, Nat.mod_eq_of_lt hlt]
    · rw [hs.2, Nat.mod_eq_of_lt hlt]
  · unfold on_user_dx
    by_cases hf : s.has_falling = true
    · rw [if_pos hf]
      by_cases hc : can_place s.board s.falling.type s.falling.rot (s.falling.x + dx)
          s.falling.y = true
      · rw [if_pos hc]
      · rw [if_neg hc]
    · rw [if_neg hf]
  · unfold on_user_rotate
    by_cases hf : s.has_falling = true
    · rw [if_pos hf]
      cases htr : try_rotate s.board s.falling dir <;> rfl
    · rw [if_neg hf]
  · unfold do_fall_one
    by_cases hc : (s.has_falling && can_place s.board s.falling.type s.falling.rot
        s.falling.x (s.falling.y + 1)) = true
    · rw [if_pos hc]
    · rw [if_neg hc]

/-- Witness for C7: landing the I piece on the prepared bottom row completes
exactly one row; neither counter wraps there, so the score gains exactly the
single-line reward of 100 and the counter exactly 1, while a horizontal move
leaves the score unchanged. -/
theorem C7_landing_reward_and_score_isolation_witness :
    (on_piece_landed landState).score = landState.score + score_tbl 1 ∧
    (on_piece_landed landState).lines_cleared_total =
      landState.lines_cleared_total + 1 ∧
    (on_user_dx 1 landState).score = landState.score := by
  have h := C7_landing_reward_and_score_isolation landState (fun _ => 0) (fun _ => 0)
    (fun _ => 0) (fun _ => 0) 1 1
  have hland := h.1 1 (by decide) (by omega)
  exact ⟨hland.2.2.1 (by decide), hland.2.2.2 (by decide), h.2.2.2.2.2.2.2.1⟩

set_option maxHeartbeats 1000000 in
theorem spawn_piece_recovery (ra rb : Nat → Nat) (s : GState)
    (hfail : can_place s.board (bag_next ra s).1 0 3 0 = false) :
    (∀ r c : Nat, cellAt (spawn_piece ra rb s).board r c = false) ∧
    (spawn_piece ra rb s).bag = refill_and_shuffle_bag rb ∧
    (spawn_piece ra rb s).bag_idx = 1 ∧
    (spawn_piece ra rb s).hold_type = -1 ∧
    (spawn_piece ra rb s).hold_used = false ∧
    can_place (spawn_piece ra rb s).board (spawn_piece ra rb s).falling.type
      (spawn_piece ra rb s).falling.rot (spawn_piece ra rb s).falling.x
      (spawn_piece ra rb s).falling.y = true ∧
    (spawn_piece ra rb s).score = s.score ∧
    (spawn_piece ra rb s).lines_cleared_total = s.lines_cleared_total := by
  unfold bag_next bag_next_type at hfail
  unfold spawn_piece bag_next bag_next_type
  by_cases hidx : 7 ≤ s.bag_idx
  · simp only [if_pos hidx] at hfail ⊢
    rw [List.getD_eq_getElem?_getD] at hfail
    rw [if_neg (by simp [hfail]), if_neg (by omega : ¬ (7 : Nat) ≤ 0)]
    refine ⟨fun r c => wipe_board_cell s.board r c, ?_, ?_, ?_, ?_,
      can_place_spawn_all_false _ _ _ (wipe_board_cell s.board), ?_, ?_⟩ <;> rfl
  · simp only [if_neg hidx] at hfail ⊢
    rw [List.getD_eq_getElem?_getD] at hfail
    rw [if_neg (by simp [hfail]), if_neg (by omega : ¬ (7 : Nat) ≤ 0)]
    refine ⟨fun r c => wipe_board_cell s.board r c, ?_, ?_, ?_, ?_,
      can_place_spawn_all_false _ _ _ (wipe_board_cell s.board), ?_, ?_⟩ <;> rfl

/-- C8: when the drawn piece cannot be placed at the fixed spawn position
(rotation 0, x = 3, y = 0), spawn_piece recovers without failing: it clears
every board cell, reshuffles the bag, empties the hold slot, clears the
hold-used latch and draws a fresh piece that is placeable; the score and
line counters survive the recovery, and every return from spawn_piece
leaves the hold-used latch false. -/
theorem C8_spawn_collision_gameover_recovery (ra rb : Nat → Nat) (s : GState)
    (hfail : can_place s.board (bag_next ra s).1 0 3 0 = false) :
    (∀ r c : Nat, cellAt (spawn_piece ra rb s).board r c = false) ∧
    (spawn_piece ra rb s).bag = refill_and_shuffle_bag rb ∧
    (spawn_piece ra rb s).bag_idx = 1 ∧
    (spawn_piece ra rb s).hold_type = -1 ∧
    (spawn_piece ra rb s).hold_used = false ∧
    can_place (spawn_piece ra rb s).board (spawn_piece ra rb s).falling.type
      (spawn_piece ra rb s).falling.rot (spawn_piece ra rb s).falling.x
      (spawn_piece ra rb s).falling.y = true ∧
    (spawn_piece ra rb s).score = s.score ∧
    (spawn_piece ra rb s).lines_cleared_total = s.lines_cleared_total ∧
    (∀ (rx ry : Nat → Nat) (z : GState), (spawn_piece rx ry z).hold_used = false) := by
  have h := spawn_piece_recovery ra rb s hfail
  exact ⟨h.1, h.2.1, h.2.2.1, h.2.2.2.1, h.2.2.2.2.1, h.2.2.2.2.2.1, h.2.2.2.2.2.2.1,
    h.2.2.2.2.2.2.2, fun rx ry z => spawn_piece_hold_used rx ry z⟩

/-- Witness for C8: on a fully locked board the drawn piece collides at the
spawn position; the recovery leaves an empty board, an empty hold slot, a
placeable fresh piece, and the score intact. -/
theorem C8_spawn_collision_gameover_recovery_witness :
    cellAt (spawn_piece (fun _ => 0) (fun _ => 0) blockedState).board 9 9 = false ∧
    (spawn_piece (fun _ => 0) (fun _ => 0) blockedState).hold_type = -1 ∧
    (spawn_piece (fun _ => 0) (fun _ => 0) blockedState).hold_used = false ∧
    can_place (spawn_piece (fun _ => 0) (fun _ => 0) blockedState).board
      (spawn_piece (fun _ => 0) (fun _ => 0) blockedState).falling.type
      (spawn_piece (fun _ => 0) (fun _ => 0) blockedState).falling.rot
      (spawn_piece (fun _ => 0) (fun _ => 0) blockedState).falling.x
      (spawn_piece (fun _ => 0) (fun _ => 0) blockedState).falling.y = true ∧
    (spawn_piece (fun _ => 0) (fun _ => 0) blockedState).score = blockedState.score := by
  have h := C8_spawn_collision_gameover_recovery (fun _ => 0) (fun _ => 0) blockedState
    (by decide)
  exact ⟨h.1 9 9, h.2.2.2.1, h.2.2.2.2.1, h.2.2.2.2.2.1, h.2.2.2.2.2.2.1⟩

end ZmkTetris
